import Mathlib

/-!
Verification development for the OpenCut speech-to-text pipeline.

Shallow embedding of the audio-extraction, transcription-orchestration,
transcript-model and timeline-projection code.  JavaScript `number` values
are modelled as exact rationals (`ℚ`); `Math.floor` is `Int.floor`;
JavaScript strings are Lean `String`s, with the handful of JS string
operations the code uses (trim, whitespace split, decimal rendering of
non-negative integers) re-implemented as structurally recursive functions
over `List Char` so that they compute inside the kernel.
-/

namespace OpenCut

/-! ## JS string helpers -/

/-- Model of `String.prototype.trim`: drop whitespace from both ends.
(JS trims the full Unicode whitespace class; the code only ever meets
ASCII whitespace, which is what `Char.isWhitespace` covers.) -/
def jsTrim (s : String) : String :=
  ⟨((s.data.dropWhile Char.isWhitespace).reverse.dropWhile Char.isWhitespace).reverse⟩

/-- Split a character list at every character satisfying `p` (the
separators are dropped; empty pieces are kept, as in `String.split`). -/
def splitOnPred (p : Char → Bool) : List Char → List (List Char)
  | [] => [[]]
  | c :: cs =>
    if p c then [] :: splitOnPred p cs
    else
      match splitOnPred p cs with
      | [] => [[c]]
      | l :: ls => (c :: l) :: ls

/-- Model of `str.trim().split(/\s+/)`: on the empty trimmed string the JS
split yields `[""]`; otherwise it yields the maximal runs of
non-whitespace characters. -/
def jsTrimSplit (s : String) : List String :=
  if jsTrim s = "" then [""]
  else ((splitOnPred Char.isWhitespace (jsTrim s).data).filter (· ≠ [])).map fun l => ⟨l⟩

/-! ## Transcript data model (`apps/web/src/types/transcript.ts`) -/

/-- Transcript word; times are in milliseconds. -/
structure TranscriptWord where
  text : String
  startTime : ℚ
  endTime : ℚ
  deriving Repr, DecidableEq

/-- Transcript chunk; times are in milliseconds. -/
structure TranscriptChunk where
  words : List TranscriptWord
  startTime : ℚ
  endTime : ℚ
  text : String
  deriving Repr, DecidableEq

/-- Transcript (`totalDuration` in milliseconds). -/
structure Transcript where
  id : String
  chunks : List TranscriptChunk
  language : String
  totalDuration : ℚ
  deriving Repr, DecidableEq

/-- Word of the raw Whisper engine output (`timestamp` in seconds). -/
structure WhisperWord where
  text : String
  timestamp : ℚ × ℚ
  deriving Repr, DecidableEq

/-- Chunk of the raw Whisper engine output (`timestamp` in seconds;
`words` is the optional chunk-level word-timestamp list). -/
structure WhisperChunk where
  timestamp : ℚ × ℚ
  text : String
  words : Option (List WhisperWord)
  deriving Repr, DecidableEq

/-- Raw Whisper engine output: full text, chunks, and the optional
top-level flat word list. -/
structure WhisperOutput where
  text : String
  chunks : List WhisperChunk
  words : Option (List WhisperWord)
  deriving Repr, DecidableEq

/-- Fallback branch of `createTranscriptFromWhisperOutput`'s word
population: split the trimmed chunk text on whitespace and give each word
an equal consecutive share of the chunk duration (all values in ms). -/
def synthesizedWords (chunk : WhisperChunk) : List TranscriptWord :=
  let startTime := chunk.timestamp.1 * 1000
  let endTime := chunk.timestamp.2 * 1000
  let words := jsTrimSplit chunk.text
  let wordDuration := (endTime - startTime) / words.length
  words.mapIdx fun index word =>
    { text := word
      startTime := startTime + index * wordDuration
      endTime := startTime + (index + 1) * wordDuration }

/-- Flat-word-list branch of the word population: keep the words of the
output's flat list whose start falls inside `[startTime, endTime]` (ms). -/
def filteredFlatWords (fw : List WhisperWord) (startTime endTime : ℚ) :
    List TranscriptWord :=
  (fw.filter fun word =>
      let wordStart := word.timestamp.1 * 1000
      startTime ≤ wordStart ∧ wordStart ≤ endTime).map fun word =>
    { text := word.text
      startTime := word.timestamp.1 * 1000
      endTime := word.timestamp.2 * 1000 }

/-- Word population for one chunk of `createTranscriptFromWhisperOutput`
(the body of the `chunks.map` in the source, factored out):
(1) chunk-level word timestamps when present and non-empty,
(2) else the flat word list (when present and non-empty) filtered to words
starting inside the chunk,
(3) else synthesized words from a whitespace split of the chunk text. -/
def whisperChunkWords (flatWords : Option (List WhisperWord))
    (chunk : WhisperChunk) : List TranscriptWord :=
  let startTime := chunk.timestamp.1 * 1000
  let endTime := chunk.timestamp.2 * 1000
  match chunk.words with
  | some ws =>
    if ws.length > 0 then
      ws.map fun word =>
        { text := word.text
          startTime := word.timestamp.1 * 1000
          endTime := word.timestamp.2 * 1000 }
    else
      match flatWords with
      | some fw =>
        if fw.length > 0 then filteredFlatWords fw startTime endTime
        else synthesizedWords chunk
      | none => synthesizedWords chunk
  | none =>
    match flatWords with
    | some fw =>
      if fw.length > 0 then filteredFlatWords fw startTime endTime
      else synthesizedWords chunk
    | none => synthesizedWords chunk

/-- Model of `createTranscriptFromWhisperOutput`; the `crypto.randomUUID()`
id is taken as an argument. -/
def createTranscriptFromWhisperOutput (uuid : String)
    (whisperOutput : WhisperOutput) : Transcript :=
  let chunks : List TranscriptChunk := whisperOutput.chunks.map fun chunk =>
    { words := whisperChunkWords whisperOutput.words chunk
      startTime := chunk.timestamp.1 * 1000
      endTime := chunk.timestamp.2 * 1000
      text := jsTrim chunk.text }
  let totalDuration :=
    match chunks.map fun chunk => chunk.endTime with
    | [] => 0
    | e :: es => es.foldl max e
  { id := uuid
    chunks := chunks
    language := "en"
    totalDuration := totalDuration }

/-! ## Timeline projection (`insertResultToTimeline` in the
speech-to-text store) -/

/-- Timeline text element; only the timing fields and the text content are
modelled (the styling fields of the source `TextElement` — font, colors,
position — are constants that play no role in the projection claims). -/
structure TextElement where
  startTime : ℚ
  duration : ℚ
  content : String
  deriving Repr, DecidableEq

/-- Chunk of a stored `TranscriptionResult` (`timestamp` in seconds). -/
structure ResultChunk where
  timestamp : ℚ × ℚ
  text : String
  deriving Repr, DecidableEq

/-- Stored transcription result: the worker-format chunks (seconds) plus
the derived `Transcript` (milliseconds). -/
structure TranscriptionResult where
  chunks : List ResultChunk
  transcript : Transcript
  deriving Repr, DecidableEq

/-- Projection granularity (the `mode` argument). -/
inductive InsertMode
  | sentences
  | words
  deriving Repr, DecidableEq

/-- Stable insertion of `e` into a list sorted by `startTime`: `e` goes
before the first element with a strictly larger-or-equal start position
only when its own start is strictly smaller, i.e. after all elements with
a smaller-or-equal start, which is where a stable sort places it. -/
def sortedInsert (e : TextElement) : List TextElement → List TextElement
  | [] => [e]
  | x :: xs => if e.startTime ≤ x.startTime then e :: x :: xs else x :: sortedInsert e xs

/-- Model of `[...textElements].sort((a, b) => a.startTime - b.startTime)`
(a stable sort by start time) as a stable insertion sort. -/
def sortByStartTime (l : List TextElement) : List TextElement :=
  l.foldr sortedInsert []

/-- Clamp step of the overlap resolution: when the current element's end
time exceeds the next element's start time, trim the current element's
duration to end exactly when the next starts. -/
def clampToNext (x y : TextElement) : TextElement :=
  if x.startTime + x.duration > y.startTime then
    { x with duration := y.startTime - x.startTime }
  else x

/-- Overlap-resolution pass of `insertResultToTimeline`: walk the sorted
list; each element except the last is clamped against its (unmodified)
successor; every element is pushed to the output. -/
def resolveOverlaps : List TextElement → List TextElement
  | [] => []
  | [x] => [x]
  | x :: y :: rest => clampToNext x y :: resolveOverlaps (y :: rest)

/-- Candidate text elements built by `insertResultToTimeline` before
overlap resolution: word mode walks the transcript's words (millisecond
times, minimum duration 0.5 s); sentence mode walks the result's chunks
(second times, minimum duration 1 s). -/
def buildTextElements (timelineOffset : ℚ) (result : TranscriptionResult) :
    InsertMode → List TextElement
  | .words =>
    result.transcript.chunks.flatMap fun chunk =>
      chunk.words.map fun word =>
        { startTime := timelineOffset + word.startTime / 1000
          duration := max ((word.endTime - word.startTime) / 1000) 0.5
          content := word.text }
  | .sentences =>
    result.chunks.map fun chunk =>
      { startTime := timelineOffset + chunk.timestamp.1
        duration := max (chunk.timestamp.2 - chunk.timestamp.1) 1
        content := jsTrim chunk.text }

/-- Pure core of `insertResultToTimeline`: build the candidate elements,
sort them by start time, and run the overlap-resolution pass.  (The store
lookup of the result, the creation of the new track and the insertion of
each resolved element into it are the surrounding imperative shell; the
resolved list is exactly what gets inserted.) -/
def insertResultToTimeline (timelineOffset : ℚ) (result : TranscriptionResult)
    (mode : InsertMode) : List TextElement :=
  resolveOverlaps (sortByStartTime (buildTextElements timelineOffset result mode))

/-! ## Audio extraction (`apps/web/src/lib/audio-extraction.ts` and
`extractAudioFromElement` in the speech-to-text store) -/

/-- Decoded audio buffer (`AudioBuffer`): per-channel sample lists, the
frame count `length`, and the sample rate. -/
structure AudioBuffer where
  numberOfChannels : ℕ
  length : ℕ
  sampleRate : ℚ
  data : List (List ℚ)
  deriving Repr, DecidableEq

/-- Model of `AudioBuffer.getChannelData(channel)`. -/
def AudioBuffer.getChannelData (b : AudioBuffer) (channel : ℕ) : List ℚ :=
  b.data.getD channel []

/-- Model of `AudioBuffer.duration` (frames over sample rate). -/
def AudioBuffer.duration (b : AudioBuffer) : ℚ :=
  (b.length : ℚ) / b.sampleRate

/-- Clamped start sample of `trimAudioBuffer`:
`max(0, min(floor(startSeconds·sr), length - 1))`. -/
def trimActualStart (audioBuffer : AudioBuffer) (startSeconds : ℚ) : ℤ :=
  max 0 (min ⌊startSeconds * audioBuffer.sampleRate⌋ ((audioBuffer.length : ℤ) - 1))

/-- Clamped sample count of `trimAudioBuffer`:
`min(floor(durationSeconds·sr), length - actualStartSample)`. -/
def trimActualDuration (audioBuffer : AudioBuffer)
    (startSeconds durationSeconds : ℚ) : ℤ :=
  min ⌊durationSeconds * audioBuffer.sampleRate⌋
    ((audioBuffer.length : ℤ) - trimActualStart audioBuffer startSeconds)

/-- Model of `trimAudioBuffer`: copy the clamped sample range; when the
clamped sample count is ≤ 0, return a single-sample silent buffer
(`createBuffer` zero-fills, so each channel is `[0]`).  Out-of-range
source reads fall back to 0. -/
def trimAudioBuffer (audioBuffer : AudioBuffer)
    (startSeconds durationSeconds : ℚ) : AudioBuffer :=
  if trimActualDuration audioBuffer startSeconds durationSeconds ≤ 0 then
    { numberOfChannels := audioBuffer.numberOfChannels
      length := 1
      sampleRate := audioBuffer.sampleRate
      data := List.replicate audioBuffer.numberOfChannels [0] }
  else
    { numberOfChannels := audioBuffer.numberOfChannels
      length := (trimActualDuration audioBuffer startSeconds durationSeconds).toNat
      sampleRate := audioBuffer.sampleRate
      data := (List.range audioBuffer.numberOfChannels).map fun channel =>
        (List.range (trimActualDuration audioBuffer startSeconds durationSeconds).toNat).map
          fun i =>
            (audioBuffer.getChannelData channel).getD
              ((trimActualStart audioBuffer startSeconds).toNat + i) 0 }

/-- Audio segment queued for the track mix. -/
structure AudioSegment where
  audioBuffer : AudioBuffer
  startTime : ℚ
  duration : ℚ
  deriving Repr, DecidableEq

/-- Sample offset of a segment in the mix output:
`floor(segment.startTime · sampleRate)`. -/
def segmentStartSample (segment : AudioSegment) (sampleRate : ℚ) : ℤ :=
  ⌊segment.startTime * sampleRate⌋

/-- Number of samples copied for a segment:
`min(segmentLength, outputLength - startSample)`. -/
def segmentCopyLength (segment : AudioSegment) (sampleRate : ℚ) (outLen : ℕ) : ℤ :=
  min ((segment.audioBuffer.getChannelData 0).length : ℤ)
    ((outLen : ℤ) - segmentStartSample segment sampleRate)

/-- One segment's additive pass of `concatenateAudioSegments`: the source
loops `i` over `[0, copyLength)` and does
`outputData[startSample + i] += segmentData[i]` (guarded by the output
bound; writes at negative indices are discarded by a Float32Array).  Each
affected index is touched exactly once, which is this per-index map. -/
def mixSegment (outputData : List ℚ) (segment : AudioSegment)
    (sampleRate : ℚ) : List ℚ :=
  outputData.mapIdx fun j v =>
    if segmentStartSample segment sampleRate ≤ (j : ℤ) ∧
        (j : ℤ) < segmentStartSample segment sampleRate +
          segmentCopyLength segment sampleRate outputData.length then
      v + (segment.audioBuffer.getChannelData 0).getD
        ((j : ℤ) - segmentStartSample segment sampleRate).toNat 0
    else v

/-- Contribution of one segment to output index `j` (0 outside the copied
range); used to state the additive-mix theorem. -/
def segContribution (segment : AudioSegment) (sampleRate : ℚ) (outLen : ℕ)
    (j : ℕ) : ℚ :=
  if segmentStartSample segment sampleRate ≤ (j : ℤ) ∧
      (j : ℤ) < segmentStartSample segment sampleRate +
        segmentCopyLength segment sampleRate outLen then
    (segment.audioBuffer.getChannelData 0).getD
      ((j : ℤ) - segmentStartSample segment sampleRate).toNat 0
  else 0

/-- Model of `normalizeAudio`: find the peak `max |sample|`; when it
exceeds 1, scale every sample by `0.95 / peak`; otherwise leave the data
unchanged. -/
def normalizeAudio (audioData : List ℚ) : List ℚ :=
  if audioData.foldl (fun m x => max m |x|) 0 > 1 then
    audioData.map fun x => x * (0.95 / audioData.foldl (fun m x => max m |x|) 0)
  else audioData

/-- Result of `concatenateAudioSegments` (the `timelineOffset`-less part of
`ExtractedAudio`). -/
structure ExtractedAudioData where
  audioData : List ℚ
  sampleRate : ℚ
  duration : ℚ
  deriving Repr, DecidableEq

/-- Model of `concatenateAudioSegments`: zero output buffer sized
`floor(totalDuration · sampleRate)` at the first segment's rate, additive
mix of every segment, then peak normalization. -/
def concatenateAudioSegments (segments : List AudioSegment)
    (totalDuration : ℚ) : Except String ExtractedAudioData :=
  match segments with
  | [] => .error "No audio segments to concatenate"
  | first :: _ =>
    .ok { audioData := normalizeAudio
            (segments.foldl
              (fun out seg => mixSegment out seg first.audioBuffer.sampleRate)
              (List.replicate (⌊totalDuration * first.audioBuffer.sampleRate⌋).toNat 0))
          sampleRate := first.audioBuffer.sampleRate
          duration := totalDuration }

/-- Media kind of a `MediaItem`. -/
inductive MediaKind
  | audio
  | video
  | image
  deriving Repr, DecidableEq

/-- Media item as seen by the extraction code: its id, kind, and the
decoded audio of its file (`none` models both a missing file and a file
that fails to decode — both paths skip the element). -/
structure MediaItemRef where
  id : String
  kind : MediaKind
  file : Option AudioBuffer
  deriving Repr, DecidableEq

/-- Kind of a timeline element (`element.type`). -/
inductive ElementKind
  | media
  | text
  deriving Repr, DecidableEq

/-- Timeline element fields used by track audio extraction. -/
structure TrackElement where
  kind : ElementKind
  mediaId : String
  startTime : ℚ
  duration : ℚ
  trimStart : ℚ
  trimEnd : ℚ
  deriving Repr, DecidableEq

/-- Stable insertion by a rational key (shared shape of the two
`sort((a, b) => a.startTime - b.startTime)` calls in the source). -/
def sortedInsertBy {α : Type} (key : α → ℚ) (e : α) : List α → List α
  | [] => [e]
  | x :: xs => if key e ≤ key x then e :: x :: xs else x :: sortedInsertBy key e xs

/-- Stable sort by a rational key. -/
def sortByKey {α : Type} (key : α → ℚ) (l : List α) : List α :=
  l.foldr (sortedInsertBy key) []

/-- First stage of `extractAudioFromTrack`: keep the media elements whose
media item exists and is audio or video, sorted by start time. -/
def audioElementsOf (elements : List TrackElement)
    (mediaItems : List MediaItemRef) : List (TrackElement × MediaItemRef) :=
  sortByKey (fun pe => pe.1.startTime)
    ((elements.filter fun e => e.kind = ElementKind.media).filterMap fun e =>
      match mediaItems.find? fun item => item.id = e.mediaId with
      | some mi =>
        if mi.kind = MediaKind.audio ∨ mi.kind = MediaKind.video then some (e, mi)
        else none
      | none => none)

/-- Track end time: `max(startTime + duration - trimStart - trimEnd)` over
the audio elements (`Math.max` over a spread; only called non-empty). -/
def trackEndTime (audioElements : List (TrackElement × MediaItemRef)) : ℚ :=
  match audioElements.map fun pe =>
    pe.1.startTime + pe.1.duration - pe.1.trimStart - pe.1.trimEnd with
  | [] => 0
  | v :: vs => vs.foldl max v

/-- Segment-building loop of `extractAudioFromTrack`: skip elements
without a decodable file; only elements with positive effective duration
(after trimming) contribute a trimmed segment. -/
def buildAudioSegments (audioElements : List (TrackElement × MediaItemRef)) :
    List AudioSegment :=
  audioElements.filterMap fun pe =>
    match pe.2.file with
    | none => none
    | some audioBuffer =>
      if pe.1.duration - pe.1.trimStart - pe.1.trimEnd > 0 then
        some { audioBuffer := trimAudioBuffer audioBuffer pe.1.trimStart
                 (pe.1.duration - pe.1.trimStart - pe.1.trimEnd)
               startTime := pe.1.startTime
               duration := pe.1.duration - pe.1.trimStart - pe.1.trimEnd }
      else none

/-- Track extraction result including the timeline offset. -/
structure ExtractedAudio where
  audioData : List ℚ
  sampleRate : ℚ
  duration : ℚ
  timelineOffset : ℚ
  deriving Repr, DecidableEq

/-- Model of `extractAudioFromTrack`. -/
def extractAudioFromTrack (elements : List TrackElement)
    (mediaItems : List MediaItemRef) : Except String ExtractedAudio :=
  let audioElements := audioElementsOf elements mediaItems
  if audioElements.length = 0 then .error "No audio elements found in track"
  else
    let audioSegments := buildAudioSegments audioElements
    if audioSegments.length = 0 then .error "No audio segments could be processed"
    else
      match concatenateAudioSegments audioSegments (trackEndTime audioElements) with
      | .error e => .error e
      | .ok c =>
        .ok { audioData := c.audioData
              sampleRate := c.sampleRate
              duration := c.duration
              timelineOffset := ((audioSegments.head?.map fun s => s.startTime).getD 0) }

/-- Model of `resampleAudio`: identity at matching rates, else linear
interpolation over the rate quotient; output samples that the loop never
writes stay 0 (Float32Array zero-fill). -/
def resampleAudio (inputData : List ℚ)
    (inputSampleRate targetSampleRate : ℚ) : List ℚ :=
  if inputSampleRate = targetSampleRate then inputData
  else
    (List.range (⌊(inputData.length : ℚ) / (inputSampleRate / targetSampleRate)⌋).toNat).map
      fun i =>
        if ⌊(i : ℚ) * (inputSampleRate / targetSampleRate)⌋ + 1 < (inputData.length : ℤ) then
          inputData.getD (⌊(i : ℚ) * (inputSampleRate / targetSampleRate)⌋).toNat 0 *
            (1 - ((i : ℚ) * (inputSampleRate / targetSampleRate) -
              ⌊(i : ℚ) * (inputSampleRate / targetSampleRate)⌋)) +
          inputData.getD ((⌊(i : ℚ) * (inputSampleRate / targetSampleRate)⌋).toNat + 1) 0 *
            ((i : ℚ) * (inputSampleRate / targetSampleRate) -
              ⌊(i : ℚ) * (inputSampleRate / targetSampleRate)⌋)
        else if ⌊(i : ℚ) * (inputSampleRate / targetSampleRate)⌋ < (inputData.length : ℤ) then
          inputData.getD (⌊(i : ℚ) * (inputSampleRate / targetSampleRate)⌋).toNat 0
        else 0

/-- Element fields used by `extractAudioFromElement` (the `|| 0` fallbacks
on the trims are identities over numbers; `duration || buffer.duration`
falls back when the duration is 0, JavaScript's falsy test). -/
structure SelectedElement where
  duration : ℚ
  trimStart : ℚ
  trimEnd : ℚ
  deriving Repr, DecidableEq

/-- The `durationSeconds` computed by `extractAudioFromElement`:
`(element.duration || audioBuffer.duration) - trimStart - trimEnd`. -/
def elementDurationSeconds (element : SelectedElement)
    (audioBuffer : AudioBuffer) : ℚ :=
  (if element.duration = 0 then audioBuffer.duration else element.duration) -
    element.trimStart - element.trimEnd

/-- The `actualStartSample` computed by `extractAudioFromElement` (same
clamp as `trimAudioBuffer`, with `startSeconds = trimStart`). -/
def elementActualStart (element : SelectedElement)
    (audioBuffer : AudioBuffer) : ℤ :=
  max 0 (min ⌊element.trimStart * audioBuffer.sampleRate⌋
    ((audioBuffer.length : ℤ) - 1))

/-- The `actualDurationSamples` computed by `extractAudioFromElement`. -/
def elementActualDuration (element : SelectedElement)
    (audioBuffer : AudioBuffer) : ℤ :=
  min ⌊elementDurationSeconds element audioBuffer * audioBuffer.sampleRate⌋
    ((audioBuffer.length : ℤ) - elementActualStart element audioBuffer)

/-- Model of the store's `extractAudioFromElement`: fails on a missing
file, fails when the effective duration after trimming is ≤ 0, fails when
the clamped sample range is empty, else extracts channel 0 of the trimmed
range and resamples it to 16 kHz (identity when the rate already is
16 kHz).  A message `m` thrown inside the `try` surfaces as
`"Failed to extract audio: " ++ m`. -/
def extractAudioFromElement (element : SelectedElement)
    (file : Option AudioBuffer) : Except String (List ℚ × ℚ) :=
  match file with
  | none => .error "No media file found for selected element"
  | some audioBuffer =>
    if elementDurationSeconds element audioBuffer ≤ 0 then
      .error "Failed to extract audio: Invalid audio duration after trimming"
    else
      if elementActualDuration element audioBuffer ≤ 0 then
        .error "Failed to extract audio: No audio samples to extract - check trim values"
      else
        .ok
          (resampleAudio
            ((List.range (elementActualDuration element audioBuffer).toNat).map fun i =>
              (audioBuffer.getChannelData 0).getD
                ((elementActualStart element audioBuffer).toNat + i) 0)
            audioBuffer.sampleRate 16000, 16000)

/-! ## SRT serialization (`millisecondsToSRTTime`, `transcriptToSRT`) -/

/-- Little-endian decimal digits of `n` (fuel-structural so the kernel can
evaluate it; `fuel > n` suffices since the argument shrinks by `/10`). -/
def natDigitsAux : ℕ → ℕ → List ℕ
  | 0, _ => []
  | fuel + 1, n => if n < 10 then [n] else n % 10 :: natDigitsAux fuel (n / 10)

/-- Decimal rendering of a natural number — what JavaScript
`Number.prototype.toString` produces for a non-negative integer. -/
def natRepr (n : ℕ) : String :=
  ⟨(natDigitsAux (n + 1) n).reverse.map fun d => Char.ofNat (48 + d)⟩

/-- Value of a little-endian digit list (for the digit-rendering proofs). -/
def digitsVal : List ℕ → ℕ
  | [] => 0
  | d :: ds => d + 10 * digitsVal ds

/-- JavaScript `toString` of an integer. -/
def jsIntToString (n : ℤ) : String :=
  if 0 ≤ n then natRepr n.toNat else "-" ++ natRepr (-n).toNat

/-- JavaScript `toString` of a number, modelled on the integer values the
SRT serializer meets (the transcript data model carries integer
milliseconds); the decimal rendering of a non-integer double is outside
the model and marked. -/
def jsRatToString (q : ℚ) : String :=
  if q.den = 1 then jsIntToString q.num else "NONINTEGER"

/-- JavaScript `%`, used by `millisecondsToSRTTime` (truncated division;
on the non-negative operands that occur here it agrees with the floored
form used below). -/
def jsMod (a b : ℚ) : ℚ :=
  a - b * ⌊a / b⌋

/-- Model of `String.prototype.padStart(targetLength, c)`. -/
def padStart (s : String) (targetLength : ℕ) (c : Char) : String :=
  ⟨List.replicate (targetLength - s.data.length) c ++ s.data⟩

/-- Model of `millisecondsToSRTTime`: `HH:MM:SS,mmm` with the hour,
minute and second fields padded to width 2 and the millisecond field
padded to width 3. -/
def millisecondsToSRTTime (ms : ℚ) : String :=
  padStart (jsIntToString ⌊ms / 3600000⌋) 2 '0' ++ ":" ++
  padStart (jsIntToString ⌊jsMod ms 3600000 / 60000⌋) 2 '0' ++ ":" ++
  padStart (jsIntToString ⌊jsMod ms 60000 / 1000⌋) 2 '0' ++ "," ++
  padStart (jsRatToString (jsMod ms 1000)) 3 '0'

/-- Model of `transcriptToSRT`: one block per chunk — 1-based index line,
time-range line, trimmed text line, each `\n`-terminated — joined with
`"\n"`, which is what puts the blank line between consecutive blocks. -/
def transcriptToSRT (transcript : Transcript) : String :=
  String.intercalate "\n" (transcript.chunks.mapIdx fun index chunk =>
    natRepr (index + 1) ++ "\n" ++
    millisecondsToSRTTime chunk.startTime ++ " --> " ++
    millisecondsToSRTTime chunk.endTime ++ "\n" ++
    jsTrim chunk.text ++ "\n")

/-! ## A standard SRT parser (for the round-trip property) -/

/-- Split a character list at a separator character. -/
def splitOnChar (sep : Char) (l : List Char) : List (List Char) :=
  splitOnPred (fun c => c == sep) l

/-- Parse a non-empty all-digit character list as a natural number. -/
def parseNatChars (cs : List Char) : Option ℕ :=
  if cs ≠ [] ∧ cs.all (fun c => c.isDigit) then
    some (cs.foldl (fun acc c => acc * 10 + (c.toNat - 48)) 0)
  else none

/-- Parse an `HH:MM:SS,mmm` time as milliseconds. -/
def parseSRTTimeChars (cs : List Char) : Option ℕ :=
  match splitOnChar ':' cs with
  | [hh, mm, rest] =>
    match splitOnChar ',' rest with
    | [ss, mmm] =>
      match parseNatChars hh, parseNatChars mm, parseNatChars ss, parseNatChars mmm with
      | some h, some m, some s, some r =>
        some (h * 3600000 + m * 60000 + s * 1000 + r)
      | _, _, _, _ => none
    | _ => none
  | _ => none

/-- Parse a `start --> end` time-range line. -/
def parseSRTTimeLineChars (cs : List Char) : Option (ℕ × ℕ) :=
  match splitOnChar ' ' cs with
  | [t1, arrow, t2] =>
    if arrow = ['-', '-', '>'] then
      match parseSRTTimeChars t1, parseSRTTimeChars t2 with
      | some a, some b => some (a, b)
      | _, _ => none
    else none
  | _ => none

/-- Parse SRT cue blocks from a line list: an index line, a time-range
line, one or more non-blank text lines, then a blank separator line; a
lone trailing blank line (the final newline of the file) is accepted.
Fuel-structural; one unit of fuel per block. -/
def parseSRTBlocks : ℕ → List (List Char) → Option (List (ℕ × ℕ × String))
  | _, [] => some []
  | _, [[]] => some []
  | 0, _ => none
  | fuel + 1, idxLine :: timeLine :: rest =>
    match parseNatChars idxLine, parseSRTTimeLineChars timeLine with
    | some _, some (a, b) =>
      if rest.takeWhile (fun l => l ≠ []) = [] then none
      else
        match parseSRTBlocks fuel ((rest.dropWhile (fun l => l ≠ [])).drop 1) with
        | some tail =>
          some ((a, b, String.intercalate "\n"
            ((rest.takeWhile (fun l => l ≠ [])).map fun l => (⟨l⟩ : String))) :: tail)
        | none => none
    | _, _ => none
  | _ + 1, _ => none

/-- Parse an SRT document: split into lines, then read cue blocks. -/
def parseSRT (s : String) : Option (List (ℕ × ℕ × String)) :=
  parseSRTBlocks (s.data.length + 1) (splitOnChar '\n' s.data)

/-- One cue of the round-trip proof: the rendered index and time-range
character lists, the times they encode, and the text characters. -/
structure SRTItem where
  idxChars : List Char
  timeChars : List Char
  startMs : ℕ
  endMs : ℕ
  textChars : List Char

/-- The rendered block of one cue: index line, time line and text line,
each newline-terminated. -/
def SRTItem.block (it : SRTItem) : String :=
  ⟨it.idxChars ++ '\n' :: (it.timeChars ++ '\n' :: (it.textChars ++ ['\n']))⟩

/-- The cues of a transcript as rendered by `transcriptToSRT`, with the
millisecond values the time lines encode. -/
def srtItems (t : Transcript) : List SRTItem :=
  t.chunks.mapIdx fun index chunk =>
    { idxChars := (natRepr (index + 1)).data
      timeChars := (millisecondsToSRTTime chunk.startTime ++ " --> " ++
        millisecondsToSRTTime chunk.endTime).data
      startMs := ⌊chunk.startTime⌋.toNat
      endMs := ⌊chunk.endTime⌋.toNat
      textChars := (jsTrim chunk.text).data }

/-! ## Speech-to-text store state machine (the zustand store of
`part_002`) -/

/-- Processing stages of `ProcessingStatus.stage`. -/
inductive Stage
  | loading
  | initializing
  | downloading
  | transcribing
  | ready
  | terminated
  | error
  deriving Repr, DecidableEq

/-- The store's `processingStatus` value. -/
structure ProcessingStatus where
  isProcessing : Bool
  stage : Stage
  progress : ℚ
  error : Option String
  deriving Repr, DecidableEq

/-- Store state: workers and promises are identified by abstract ids;
the model-selection and device-capability fields play no role in the
claims and are omitted. -/
structure StoreState where
  worker : Option ℕ
  isWorkerInitialized : Bool
  initializationPromise : Option ℕ
  processingStatus : ProcessingStatus
  results : List TranscriptionResult
  deriving Repr, DecidableEq

/-- The store's initial state. -/
def initialStore : StoreState :=
  { worker := none
    isWorkerInitialized := false
    initializationPromise := none
    processingStatus :=
      { isProcessing := false, stage := .ready, progress := 0, error := none }
    results := [] }

/-- Stages the speech-to-text worker actually puts into an `update`
message: `"ready"` (test-message reply), `"downloading"` and `"loading"`
(model-load progress forwarding), `"transcribing"` (streaming updates).
The worker never sends an `update` whose stage is `"error"` — errors go
through a separate `status: "error"` message. -/
inductive UpdateStage
  | ready
  | downloading
  | loading
  | transcribing
  deriving Repr, DecidableEq

/-- Injection of worker update stages into store stages. -/
def UpdateStage.toStage : UpdateStage → Stage
  | .ready => .ready
  | .downloading => .downloading
  | .loading => .loading
  | .transcribing => .transcribing

/-- State transitions of the store.  Each constructor is one `set(...)`
site: the three `update`/`complete`/`error` arms of `worker.onmessage`,
the `worker.onerror` and script-error handlers and the `postMessage`
failure (all three share one shape, `workerScriptError`), the catch and
success paths of `initializeWorker`, its two synchronous stores
(`workerCreated`, `promiseStored`), the start and catch of
`processSelectedElement`, `terminateWorker`, and `resetState`. -/
inductive StoreEvent
  | workerUpdate (stage : Option UpdateStage) (progress : ℚ)
  | workerComplete (elementInfo : Bool) (result : TranscriptionResult)
  | workerError (msg : String)
  | workerScriptError (msg : String)
  | initFailure (msg : String)
  | initSuccess
  | workerCreated (w : ℕ)
  | promiseStored (p : ℕ)
  | processStart
  | processFailure (msg : String)
  | terminateWorker
  | resetState
  deriving Repr, DecidableEq

/-- One store transition (the body of each `set(...)` in the source). -/
def stepStore (s : StoreState) : StoreEvent → StoreState
  | .workerUpdate stage progress =>
    { s with processingStatus :=
        { isProcessing := true
          stage := (stage.map UpdateStage.toStage).getD Stage.initializing
          progress := progress
          error := none } }
  | .workerComplete elementInfo result =>
    if elementInfo then
      { s with results := s.results ++ [result]
               processingStatus :=
                 { isProcessing := false, stage := .ready, progress := 100,
                   error := none } }
    else s
  | .workerError msg =>
    { s with processingStatus :=
        { isProcessing := false, stage := .error, progress := 0,
          error := some msg } }
  | .workerScriptError msg =>
    { s with processingStatus :=
        { isProcessing := false, stage := .error, progress := 0,
          error := some msg } }
  | .initFailure msg =>
    { s with worker := none
             isWorkerInitialized := false
             initializationPromise := none
             processingStatus :=
               { isProcessing := false, stage := .error, progress := 0,
                 error := some msg } }
  | .initSuccess =>
    { s with isWorkerInitialized := true
             initializationPromise := none
             processingStatus :=
               { isProcessing := false, stage := .ready, progress := 100,
                 error := none } }
  | .workerCreated w => { s with worker := some w }
  | .promiseStored p => { s with initializationPromise := some p }
  | .processStart =>
    { s with processingStatus :=
        { isProcessing := true, stage := .loading, progress := 0, error := none } }
  | .processFailure msg =>
    { s with processingStatus :=
        { isProcessing := false, stage := .error, progress := 0,
          error := some msg } }
  | .terminateWorker =>
    if s.worker.isSome then
      { s with worker := none
               isWorkerInitialized := false
               initializationPromise := none
               processingStatus :=
                 { isProcessing := false, stage := .terminated, progress := 0,
                   error := none } }
    else s
  | .resetState =>
    { s with worker := none
             isWorkerInitialized := false
             initializationPromise := none
             processingStatus :=
               { isProcessing := false, stage := .ready, progress := 0,
                 error := none }
             results := [] }

/-- The store state after a sequence of events from the initial state. -/
def runStore (events : List StoreEvent) : StoreState :=
  events.foldl stepStore initialStore

/-- Model of the synchronous prefix of `initializeWorker` (everything up
to the first `await`): when an initialization promise is already stored,
return it and change nothing; otherwise terminate an existing worker,
create and store a fresh worker, and store a fresh in-flight promise
(which the function also returns). -/
def initializeWorker (s : StoreState) (freshWorker freshPromise : ℕ) :
    StoreState × ℕ :=
  match s.initializationPromise with
  | some p => (s, p)
  | none =>
    ({ stepStore s StoreEvent.terminateWorker with
        worker := some freshWorker
        initializationPromise := some freshPromise }, freshPromise)

/-! ## Whisper streamer state (the `transcribe` callbacks of the
speech-to-text worker) -/

/-- One chunk record of the worker's `chunks` array
(`timestamp: [start, end|null]` is split into two fields). -/
structure WorkChunk where
  text : String
  timestampStart : ℚ
  timestampEnd : Option ℚ
  finalised : Bool
  offset : ℚ
  deriving Repr, DecidableEq

/-- Streamer state: the chunk records and the completed-window counter
`chunk_count` (incremented by `on_finalize`). -/
structure StreamState where
  chunks : List WorkChunk
  chunk_count : ℕ
  deriving Repr, DecidableEq

/-- Streamer callback events: `on_chunk_start`, `callback_function`
(streamed text), `on_chunk_end`, `on_finalize`. -/
inductive StreamEvent
  | chunkStart (x : ℚ)
  | textPiece (t : String)
  | chunkEnd (x : ℚ)
  | finalizeWindow
  deriving Repr, DecidableEq

/-- Modify the last element of a list (the `chunks[chunks.length - 1]`
mutations in the source; no-op on an empty array). -/
def modifyLast {α : Type} (f : α → α) : List α → List α
  | [] => []
  | [x] => [f x]
  | x :: y :: xs => x :: modifyLast f (y :: xs)

/-- One streamer callback step; the second component is the progress
percentage posted by `callback_function` (the only callback that posts a
`transcribing` update). -/
def streamStep (chunkLen strideLen : ℚ) (s : StreamState) :
    StreamEvent → StreamState × Option ℕ
  | .chunkStart x =>
    ({ s with chunks := s.chunks ++
        [{ text := ""
           timestampStart := (chunkLen - strideLen) * s.chunk_count + x
           timestampEnd := none
           finalised := false
           offset := (chunkLen - strideLen) * s.chunk_count }] }, none)
  | .textPiece t =>
    if s.chunks.isEmpty then (s, none)
    else
      ({ s with chunks := modifyLast (fun c => { c with text := c.text ++ t }) s.chunks },
       some (min 95 (s.chunk_count * 15 + s.chunks.length * 5)))
  | .chunkEnd x =>
    ({ s with chunks := modifyLast (fun c =>
        { c with timestampEnd := some (x + c.offset), finalised := true }) s.chunks },
     none)
  | .finalizeWindow => ({ s with chunk_count := s.chunk_count + 1 }, none)

/-- Run the streamer over a callback sequence, collecting the posted
progress percentages. -/
def runStreamer (chunkLen strideLen : ℚ) (events : List StreamEvent) :
    StreamState × List ℕ :=
  events.foldl
    (fun acc e =>
      ((streamStep chunkLen strideLen acc.1 e).1,
       acc.2 ++ (streamStep chunkLen strideLen acc.1 e).2.toList))
    (⟨[], 0⟩, [])

/-- The percentage the claim asserts: `min(95, windowIndex·15 +
finalizedChunkCount·5)` with `finalizedChunkCount` counting only
finalized chunks. -/
def claimedProgress (s : StreamState) : ℕ :=
  min 95 (s.chunk_count * 15 + (s.chunks.filter fun c => c.finalised).length * 5)

/-- End-to-end scenario input of the spec: chunks `[0,2000]ms "hello world"`
and `[2500,4000]ms "goodbye"` (worker chunks carry second timestamps). -/
def scenarioResult : TranscriptionResult :=
  { chunks := [⟨(0, 2), "hello world"⟩, ⟨(2.5, 4), "goodbye"⟩]
    transcript :=
      { id := "scenario"
        chunks :=
          [{ words := [⟨"hello", 0, 1000⟩, ⟨"world", 1000, 2000⟩]
             startTime := 0, endTime := 2000, text := "hello world" },
           { words := [⟨"goodbye", 2500, 4000⟩]
             startTime := 2500, endTime := 4000, text := "goodbye" }]
        language := "en"
        totalDuration := 4000 } }

end OpenCut

namespace OpenCut

/-! ## Lemmas about the overlap-resolution pass -/

theorem resolveOverlaps_length (l : List TextElement) :
    (resolveOverlaps l).length = l.length := by
  induction l with
  | nil => rfl
  | cons x xs ih =>
    cases xs with
    | nil => rfl
    | cons y rest => simp only [resolveOverlaps, List.length_cons] at ih ⊢; omega

theorem clampToNext_startTime (x y : TextElement) :
    (clampToNext x y).startTime = x.startTime := by
  unfold clampToNext; split <;> rfl

theorem clampToNext_content (x y : TextElement) :
    (clampToNext x y).content = x.content := by
  unfold clampToNext; split <;> rfl

theorem clampToNext_duration_le (x y : TextElement) :
    (clampToNext x y).duration ≤ x.duration := by
  unfold clampToNext; split
  · next h => simp only; linarith
  · exact le_refl _

theorem clampToNext_end_le (x y : TextElement) :
    (clampToNext x y).startTime + (clampToNext x y).duration ≤ y.startTime := by
  unfold clampToNext; split
  · next h => simp only; linarith
  · next h => linarith

theorem resolveOverlaps_forall₂ (l : List TextElement) :
    List.Forall₂ (fun o s => o.startTime = s.startTime ∧ o.content = s.content ∧
      o.duration ≤ s.duration) (resolveOverlaps l) l := by
  induction l with
  | nil => exact List.Forall₂.nil
  | cons x xs ih =>
    cases xs with
    | nil => exact List.Forall₂.cons ⟨rfl, rfl, le_refl _⟩ List.Forall₂.nil
    | cons y rest =>
      exact List.Forall₂.cons
        ⟨clampToNext_startTime x y, clampToNext_content x y,
          clampToNext_duration_le x y⟩ ih

theorem resolveOverlaps_head_startTime (y : TextElement) (rest : List TextElement) :
    ∃ h, (resolveOverlaps (y :: rest)).head? = some h ∧ h.startTime = y.startTime := by
  cases rest with
  | nil => exact ⟨y, rfl, rfl⟩
  | cons z rs => exact ⟨clampToNext y z, rfl, clampToNext_startTime y z⟩

theorem resolveOverlaps_chain' (l : List TextElement) :
    List.Chain' (fun a b => a.startTime + a.duration ≤ b.startTime)
      (resolveOverlaps l) := by
  induction l with
  | nil => exact List.chain'_nil
  | cons x xs ih =>
    cases xs with
    | nil => exact List.chain'_singleton x
    | cons y rest =>
      refine List.chain'_cons'.mpr ⟨?_, ih⟩
      intro h hh
      obtain ⟨h', hh', hst⟩ := resolveOverlaps_head_startTime y rest
      rw [hh'] at hh
      cases hh
      rw [hst]
      exact clampToNext_end_le x y

theorem forall₂_map_startTime {l₁ l₂ : List TextElement}
    (h : List.Forall₂ (fun o s => o.startTime = s.startTime ∧ o.content = s.content ∧
      o.duration ≤ s.duration) l₁ l₂) :
    l₁.map (fun e => e.startTime) = l₂.map (fun e => e.startTime) := by
  induction h with
  | nil => rfl
  | cons hr _ ih => simp only [List.map_cons, ih, hr.1]

/-- C1: after `insertResultToTimeline`'s overlap-resolution pass (sort the
candidates by start time, clamp each overlapping element's duration to the
next start), every adjacent pair `(a, b)` of the output satisfies
`a.startTime + a.duration ≤ b.startTime`, and no element's duration is
ever increased from its pre-resolution (sorted-candidate) value — for
every transcription result, timeline offset and granularity. -/
theorem C1_overlap_resolution_sound (timelineOffset : ℚ)
    (result : TranscriptionResult) (mode : InsertMode) :
    List.Chain' (fun a b => a.startTime + a.duration ≤ b.startTime)
      (insertResultToTimeline timelineOffset result mode) ∧
    List.Forall₂ (fun o s => o.duration ≤ s.duration)
      (insertResultToTimeline timelineOffset result mode)
      (sortByStartTime (buildTextElements timelineOffset result mode)) := by
  constructor
  · exact resolveOverlaps_chain' _
  · exact (resolveOverlaps_forall₂ _).imp fun a b h => h.2.2

/-- C10 (implicit): the overlap-resolution pass never removes an element:
for every candidate list, the resolved output has exactly the length and
start times of the sorted input, and only durations change, only
downward — so an element whose clamped duration comes out zero is still
kept.  Stated for `insertResultToTimeline` over any result and mode. -/
theorem C10_overlap_resolution_preserves_elements (timelineOffset : ℚ)
    (result : TranscriptionResult) (mode : InsertMode) :
    (insertResultToTimeline timelineOffset result mode).length =
      (sortByStartTime (buildTextElements timelineOffset result mode)).length ∧
    (insertResultToTimeline timelineOffset result mode).map (fun e => e.startTime) =
      (sortByStartTime (buildTextElements timelineOffset result mode)).map
        (fun e => e.startTime) ∧
    List.Forall₂ (fun o s => o.startTime = s.startTime ∧ o.content = s.content ∧
      o.duration ≤ s.duration)
      (insertResultToTimeline timelineOffset result mode)
      (sortByStartTime (buildTextElements timelineOffset result mode)) := by
  exact ⟨resolveOverlaps_length _, forall₂_map_startTime (resolveOverlaps_forall₂ _),
    resolveOverlaps_forall₂ _⟩

/-- C6: sentence granularity yields one element per chunk with
`startTime = timelineOffset + chunkStartSec` and
`duration = max(chunkEndSec - chunkStartSec, 1)`; word granularity yields
one element per word with `startTime = timelineOffset + wordStartMs/1000`
and `duration = max(wordDurationSec, 0.5)`.  In particular the spec's
scenario (chunks `[0,2000]ms` and `[2500,4000]ms`, sentence granularity,
offset 10 s) yields elements `(10.0, 2.0)` and `(12.5, 1.5)`, unclamped. -/
theorem C6_projection_element_values :
    (∀ (timelineOffset : ℚ) (result : TranscriptionResult),
      buildTextElements timelineOffset result .sentences = result.chunks.map fun c =>
        { startTime := timelineOffset + c.timestamp.1
          duration := max (c.timestamp.2 - c.timestamp.1) 1
          content := jsTrim c.text }) ∧
    (∀ (timelineOffset : ℚ) (result : TranscriptionResult),
      buildTextElements timelineOffset result .words =
        result.transcript.chunks.flatMap fun ch =>
          ch.words.map fun w =>
            { startTime := timelineOffset + w.startTime / 1000
              duration := max ((w.endTime - w.startTime) / 1000) 0.5
              content := w.text }) ∧
    insertResultToTimeline 10 scenarioResult .sentences =
      [{ startTime := 10, duration := 2, content := "hello world" },
       { startTime := 12.5, duration := 1.5, content := "goodbye" }] := by
  refine ⟨fun _ _ => rfl, fun _ _ => rfl, ?_⟩
  have h1 : jsTrim "hello world" = "hello world" := rfl
  have h2 : jsTrim "goodbye" = "goodbye" := rfl
  norm_num [insertResultToTimeline, buildTextElements, scenarioResult,
    sortByStartTime, sortedInsert, resolveOverlaps, clampToNext, h1, h2]

/-! ## Lemmas about the whitespace split -/

theorem splitOnPred_ne_nil (p : Char → Bool) (l : List Char) :
    splitOnPred p l ≠ [] := by
  induction l with
  | nil => simp [splitOnPred]
  | cons c cs ih =>
    rw [splitOnPred]
    split
    · simp
    · cases h : splitOnPred p cs with
      | nil => simp
      | cons x xs => simp [h]

theorem splitOnPred_all_ws {p : Char → Bool} {l : List Char}
    (h : ∀ a ∈ splitOnPred p l, a = []) : ∀ c ∈ l, p c := by
  induction l with
  | nil => simp
  | cons c cs ih =>
    rw [splitOnPred] at h
    by_cases hc : p c
    · rw [if_pos hc] at h
      intro x hx
      rcases List.mem_cons.mp hx with rfl | hx'
      · exact hc
      · exact ih (fun a ha => h a (List.mem_cons_of_mem _ ha)) x hx'
    · rw [if_neg hc] at h
      cases hr : splitOnPred p cs with
      | nil => exact absurd hr (splitOnPred_ne_nil p cs)
      | cons x xs =>
        rw [hr] at h
        exact absurd (h (c :: x) (List.mem_cons_self _ _)) (by simp)

theorem dropWhile_all_eq_nil {p : Char → Bool} {l : List Char}
    (h : ∀ c ∈ l.dropWhile p, p c) : l.dropWhile p = [] := by
  induction l with
  | nil => rfl
  | cons c cs ih =>
    rw [List.dropWhile_cons] at h ⊢
    by_cases hc : p c
    · rw [if_pos hc] at h ⊢; exact ih h
    · rw [if_neg hc] at h
      exact absurd (h c (by simp)) hc

theorem jsTrim_all_ws_eq_empty {s : String}
    (h : ∀ c ∈ (jsTrim s).data, c.isWhitespace) : jsTrim s = "" := by
  unfold jsTrim at h ⊢
  simp only [List.mem_reverse] at h
  have hnil := dropWhile_all_eq_nil fun c hc => h c (by simpa using hc)
  rw [hnil]
  rfl

theorem jsTrimSplit_ne_nil (s : String) : jsTrimSplit s ≠ [] := by
  unfold jsTrimSplit
  split
  · simp
  · next ht =>
    intro hcon
    rw [List.map_eq_nil_iff, List.filter_eq_nil_iff] at hcon
    have hws := splitOnPred_all_ws fun a ha => by simpa using hcon a ha
    exact ht (jsTrim_all_ws_eq_empty hws)

theorem jsTrimSplit_length_pos (s : String) : 0 < (jsTrimSplit s).length :=
  List.length_pos.mpr (jsTrimSplit_ne_nil s)

/-! ## Properties of the synthesized fallback words -/

theorem whisperChunkWords_fallback (flatWords : Option (List WhisperWord))
    (chunk : WhisperChunk)
    (hcw : chunk.words = none ∨ chunk.words = some [])
    (hfw : flatWords = none ∨ flatWords = some []) :
    whisperChunkWords flatWords chunk = synthesizedWords chunk := by
  rcases hcw with h | h <;> rcases hfw with h' | h' <;>
    simp [whisperChunkWords, h, h']

theorem synthesizedWords_length (chunk : WhisperChunk) :
    (synthesizedWords chunk).length = (jsTrimSplit chunk.text).length := by
  simp [synthesizedWords]

theorem synthesizedWords_durations (chunk : WhisperChunk) :
    ((synthesizedWords chunk).map fun w => w.endTime - w.startTime) =
      List.replicate (jsTrimSplit chunk.text).length
        ((chunk.timestamp.2 * 1000 - chunk.timestamp.1 * 1000) /
          (jsTrimSplit chunk.text).length) := by
  apply List.ext_getElem
  · simp [synthesizedWords]
  · intro i h1 h2
    simp only [synthesizedWords, List.getElem_map, List.getElem_mapIdx,
      List.getElem_replicate]
    ring

theorem synthesizedWords_durations_sum (chunk : WhisperChunk) :
    ((synthesizedWords chunk).map fun w => w.endTime - w.startTime).sum =
      chunk.timestamp.2 * 1000 - chunk.timestamp.1 * 1000 := by
  rw [synthesizedWords_durations, List.sum_replicate, nsmul_eq_mul]
  have hn : ((jsTrimSplit chunk.text).length : ℚ) ≠ 0 := by
    exact_mod_cast Nat.pos_iff_ne_zero.mp (jsTrimSplit_length_pos chunk.text)
  rw [mul_comm, div_mul_cancel₀ _ hn]

/-- C4: for an engine-output chunk with neither chunk-level word
timestamps nor a top-level flat word list, the word population of
`createTranscriptFromWhisperOutput` synthesizes words from the
whitespace-split trimmed chunk text: the word count equals the split
count, word `i` spans `[start + i·share, start + (i+1)·share]` for the
equal share `chunkDuration / count`, and the durations sum to exactly the
chunk duration `endTime - startTime` (milliseconds). -/
theorem C4_fallback_word_synthesis (uuid : String) (output : WhisperOutput)
    (chunk : WhisperChunk)
    (hcw : chunk.words = none ∨ chunk.words = some [])
    (hfw : output.words = none ∨ output.words = some []) :
    whisperChunkWords output.words chunk = synthesizedWords chunk ∧
    (whisperChunkWords output.words chunk).length =
      (jsTrimSplit chunk.text).length ∧
    ((whisperChunkWords output.words chunk).map fun w =>
      w.endTime - w.startTime).sum =
      chunk.timestamp.2 * 1000 - chunk.timestamp.1 * 1000 ∧
    (∀ (i : ℕ) (word : String), (jsTrimSplit chunk.text)[i]? = some word →
      (whisperChunkWords output.words chunk)[i]? = some
        ({ text := word
           startTime := chunk.timestamp.1 * 1000 +
             (i : ℚ) * ((chunk.timestamp.2 * 1000 - chunk.timestamp.1 * 1000) /
               (jsTrimSplit chunk.text).length)
           endTime := chunk.timestamp.1 * 1000 +
             ((i : ℚ) + 1) * ((chunk.timestamp.2 * 1000 - chunk.timestamp.1 * 1000) /
               (jsTrimSplit chunk.text).length) } : TranscriptWord)) ∧
    (createTranscriptFromWhisperOutput uuid output).chunks =
      output.chunks.map fun c =>
        { words := whisperChunkWords output.words c
          startTime := c.timestamp.1 * 1000
          endTime := c.timestamp.2 * 1000
          text := jsTrim c.text } := by
  have hfb := whisperChunkWords_fallback output.words chunk hcw hfw
  refine ⟨hfb, ?_, ?_, ?_, rfl⟩
  · rw [hfb]; exact synthesizedWords_length chunk
  · rw [hfb]; exact synthesizedWords_durations_sum chunk
  · intro i word hw
    obtain ⟨hi, hword⟩ := List.getElem?_eq_some.mp hw
    rw [hfb, List.getElem?_eq_some]
    refine ⟨by simpa [synthesizedWords] using hi, ?_⟩
    simp [synthesizedWords, List.getElem_mapIdx, hword]

/-! ## Lemmas about the track mix and normalization -/

theorem mixSegment_length (outputData : List ℚ) (segment : AudioSegment)
    (sampleRate : ℚ) :
    (mixSegment outputData segment sampleRate).length = outputData.length := by
  simp [mixSegment]

theorem mixSegment_getD (outputData : List ℚ) (segment : AudioSegment)
    (sampleRate : ℚ) (j : ℕ) (hj : j < outputData.length) :
    (mixSegment outputData segment sampleRate).getD j 0 =
      outputData.getD j 0 + segContribution segment sampleRate outputData.length j := by
  have hj' : j < (mixSegment outputData segment sampleRate).length := by
    rw [mixSegment_length]; exact hj
  rw [List.getD_eq_getElem?_getD, List.getElem?_eq_getElem hj',
    List.getD_eq_getElem?_getD, List.getElem?_eq_getElem hj]
  simp only [mixSegment, List.getElem_mapIdx, segContribution, Option.getD_some]
  split
  · next h => rfl
  · next h => ring

theorem mixFold_getD (segments : List AudioSegment) (sampleRate : ℚ) :
    ∀ (outputData : List ℚ) (j : ℕ), j < outputData.length →
    (segments.foldl (fun out seg => mixSegment out seg sampleRate) outputData).getD j 0 =
      outputData.getD j 0 +
        (segments.map fun seg =>
          segContribution seg sampleRate outputData.length j).sum := by
  induction segments with
  | nil => intro out j hj; simp
  | cons s ss ih =>
    intro out j hj
    simp only [List.foldl_cons, List.map_cons, List.sum_cons]
    rw [ih (mixSegment out s sampleRate) j (by rw [mixSegment_length]; exact hj)]
    rw [mixSegment_length, mixSegment_getD out s sampleRate j hj]
    ring

theorem le_foldl_max_abs (l : List ℚ) (a : ℚ) :
    a ≤ l.foldl (fun m x => max m |x|) a := by
  induction l generalizing a with
  | nil => exact le_rfl
  | cons x xs ih => exact le_trans (le_max_left a |x|) (ih (max a |x|))

theorem mem_le_foldl_max_abs {l : List ℚ} {x : ℚ} (hx : x ∈ l) (a : ℚ) :
    |x| ≤ l.foldl (fun m x => max m |x|) a := by
  induction l generalizing a with
  | nil => cases hx
  | cons y ys ih =>
    rcases List.mem_cons.mp hx with rfl | hx'
    · exact le_trans (le_max_right a |x|) (le_foldl_max_abs ys (max a |x|))
    · exact ih hx' (max a |y|)

/-- C3: mixing is additive — after the fold of `mixSegment` over all
segments, every output sample is the initial value plus the sum of the
contributing segments' samples at that position — and `normalizeAudio`
leaves the data unchanged when the peak is ≤ 1, and scales by
`0.95 / peak` to a post-normalization bound `max |output| ≤ 1` when the
peak exceeds 1; `concatenateAudioSegments` is exactly this mix followed by
this normalization. -/
theorem C3_additive_mix_and_normalization :
    (∀ (segments : List AudioSegment) (sampleRate : ℚ) (outputData : List ℚ)
      (j : ℕ), j < outputData.length →
      (segments.foldl (fun out seg => mixSegment out seg sampleRate)
        outputData).getD j 0 =
        outputData.getD j 0 +
          (segments.map fun seg =>
            segContribution seg sampleRate outputData.length j).sum) ∧
    (∀ audioData : List ℚ, audioData.foldl (fun m x => max m |x|) 0 ≤ 1 →
      normalizeAudio audioData = audioData) ∧
    (∀ audioData : List ℚ, 1 < audioData.foldl (fun m x => max m |x|) 0 →
      ∀ y ∈ normalizeAudio audioData, |y| ≤ 1) ∧
    (∀ (first : AudioSegment) (rest : List AudioSegment) (totalDuration : ℚ),
      concatenateAudioSegments (first :: rest) totalDuration = .ok
        { audioData := normalizeAudio ((first :: rest).foldl
            (fun out seg => mixSegment out seg first.audioBuffer.sampleRate)
            (List.replicate (⌊totalDuration * first.audioBuffer.sampleRate⌋).toNat 0))
          sampleRate := first.audioBuffer.sampleRate
          duration := totalDuration }) := by
  refine ⟨fun segments sampleRate => mixFold_getD segments sampleRate, ?_, ?_,
    fun _ _ _ => rfl⟩
  · intro audioData h
    unfold normalizeAudio
    rw [if_neg (not_lt.mpr h)]
  · intro audioData h y hy
    unfold normalizeAudio at hy
    rw [if_pos h] at hy
    obtain ⟨x, hx, rfl⟩ := List.mem_map.mp hy
    have hpeak : (0:ℚ) < audioData.foldl (fun m x => max m |x|) 0 := by linarith
    have hxb : |x| ≤ audioData.foldl (fun m x => max m |x|) 0 :=
      mem_le_foldl_max_abs hx 0
    rw [abs_mul, abs_of_pos (by positivity :
      (0:ℚ) < 0.95 / audioData.foldl (fun m x => max m |x|) 0)]
    calc |x| * (0.95 / audioData.foldl (fun m x => max m |x|) 0)
        ≤ audioData.foldl (fun m x => max m |x|) 0 *
            (0.95 / audioData.foldl (fun m x => max m |x|) 0) :=
          mul_le_mul_of_nonneg_right hxb (by positivity)
      _ = 0.95 := by field_simp
      _ ≤ 1 := by norm_num

/-- Witness for C3: a one-segment mix at a concrete index, an in-range
buffer left unchanged, and an out-of-range buffer bounded after
normalization. -/
theorem C3_additive_mix_witness :
    ((([⟨⟨1, 1, 1, [[100]]⟩, 0, 1⟩] : List AudioSegment).foldl
        (fun out seg => mixSegment out seg 1) [(10:ℚ), 20]).getD 0 0 =
      (10:ℚ) + ([(⟨⟨1, 1, 1, [[100]]⟩, 0, 1⟩ : AudioSegment)].map fun seg =>
        segContribution seg 1 2 0).sum) ∧
    normalizeAudio [(1:ℚ)/2] = [(1:ℚ)/2] ∧
    (∀ y ∈ normalizeAudio [(2:ℚ)], |y| ≤ 1) := by
  refine ⟨?_, ?_, ?_⟩
  · have h := C3_additive_mix_and_normalization.1
      [⟨⟨1, 1, 1, [[100]]⟩, 0, 1⟩] 1 [(10:ℚ), 20] 0 (by norm_num)
    simpa using h
  · refine C3_additive_mix_and_normalization.2.1 _ ?_
    simp only [List.foldl_cons, List.foldl_nil]
    rw [abs_of_nonneg (by norm_num : (0:ℚ) ≤ 1/2)]
    norm_num
  · refine C3_additive_mix_and_normalization.2.2.1 _ ?_
    simp only [List.foldl_cons, List.foldl_nil]
    rw [abs_of_nonneg (by norm_num : (0:ℚ) ≤ 2)]
    norm_num

/-! ## Theorems about extraction totality (C2) -/

/-- C2 counterexample: a trim configuration with effective duration
`1 - 2 - 0 = -1 ≤ 0` makes `extractAudioFromElement` raise (return the
wrapped thrown error), rather than being excluded or receiving a silent
buffer — the claim's totality does not extend to this entry point. -/
theorem C2_element_extraction_raises_counterexample :
    extractAudioFromElement ⟨1, 2, 0⟩ (some ⟨1, 4, 4, [[1, 1, 1, 1]]⟩) =
      .error "Failed to extract audio: Invalid audio duration after trimming" ∧
    elementDurationSeconds ⟨1, 2, 0⟩ ⟨1, 4, 4, [[1, 1, 1, 1]]⟩ ≤ 0 := by
  constructor
  · norm_num [extractAudioFromElement, elementDurationSeconds]
  · norm_num [elementDurationSeconds]

/-- C2 (amended): totality over trim configurations holds on the track
path — `trimAudioBuffer` returns a single-sample silent buffer whenever
the clamped sample count is ≤ 0, and the track segment builder only ever
admits elements with positive effective duration — while the
single-element entry point `extractAudioFromElement` instead fails with
`'Invalid audio duration after trimming'` whenever the effective duration
is ≤ 0. -/
theorem C2_trim_totality_amended :
    (∀ (audioBuffer : AudioBuffer) (startSeconds durationSeconds : ℚ),
      trimActualDuration audioBuffer startSeconds durationSeconds ≤ 0 →
      trimAudioBuffer audioBuffer startSeconds durationSeconds =
        { numberOfChannels := audioBuffer.numberOfChannels
          length := 1
          sampleRate := audioBuffer.sampleRate
          data := List.replicate audioBuffer.numberOfChannels [0] }) ∧
    (∀ (audioElements : List (TrackElement × MediaItemRef)) (seg : AudioSegment),
      seg ∈ buildAudioSegments audioElements → 0 < seg.duration) ∧
    (∀ (element : SelectedElement) (audioBuffer : AudioBuffer),
      elementDurationSeconds element audioBuffer ≤ 0 →
      extractAudioFromElement element (some audioBuffer) =
        .error "Failed to extract audio: Invalid audio duration after trimming") := by
  refine ⟨?_, ?_, ?_⟩
  · intro b s d h
    unfold trimAudioBuffer
    rw [if_pos h]
  · intro audioElements seg hseg
    obtain ⟨pe, hpe, hf⟩ := List.mem_filterMap.mp hseg
    cases hfile : pe.2.file with
    | none => rw [hfile] at hf; cases hf
    | some buf =>
      rw [hfile] at hf
      dsimp only at hf
      by_cases hd : pe.1.duration - pe.1.trimStart - pe.1.trimEnd > 0
      · rw [if_pos hd] at hf
        cases hf
        exact hd
      · rw [if_neg hd] at hf; cases hf
  · intro e b h
    show (if elementDurationSeconds e b ≤ 0 then _ else _) = _
    rw [if_pos h]

/-- Witness for C2 (amended): a zero-duration trim yields the
single-sample silent buffer; a negative effective duration makes the
element entry point fail. -/
theorem C2_trim_totality_witness :
    trimAudioBuffer ⟨1, 4, 4, [[1, 1, 1, 1]]⟩ 0 0 =
      ({ numberOfChannels := 1, length := 1, sampleRate := 4,
         data := [[0]] } : AudioBuffer) ∧
    extractAudioFromElement ⟨3, 2, 2⟩ (some ⟨1, 4, 4, [[1, 1, 1, 1]]⟩) =
      .error "Failed to extract audio: Invalid audio duration after trimming" := by
  constructor
  · have h := C2_trim_totality_amended.1 ⟨1, 4, 4, [[1, 1, 1, 1]]⟩ 0 0
      (by norm_num [trimActualDuration, trimActualStart])
    simpa using h
  · exact C2_trim_totality_amended.2.2 ⟨3, 2, 2⟩ ⟨1, 4, 4, [[1, 1, 1, 1]]⟩
      (by norm_num [elementDurationSeconds])

/-- Witness for C4 at a concrete chunk with no word-level data. -/
theorem C4_fallback_word_synthesis_witness :
    ((whisperChunkWords none
        { timestamp := (1, 3), text := "hi there", words := none }).map fun w =>
      w.endTime - w.startTime).sum = 2000 := by
  have h := (C4_fallback_word_synthesis "id"
    { text := "hi there"
      chunks := [{ timestamp := (1, 3), text := "hi there", words := none }]
      words := none }
    { timestamp := (1, 3), text := "hi there", words := none }
    (Or.inl rfl) (Or.inl rfl)).2.2.1
  norm_num at h
  exact h

/-! ## Store state-machine theorems (C8, C9) -/

theorem stepStore_error_inv (s : StoreState) (e : StoreEvent)
    (h : s.processingStatus.stage = Stage.error →
      s.processingStatus.isProcessing = false) :
    (stepStore s e).processingStatus.stage = Stage.error →
    (stepStore s e).processingStatus.isProcessing = false := by
  cases e with
  | workerUpdate stage progress =>
    cases stage with
    | none => intro hs; exact absurd hs (by simp [stepStore])
    | some u =>
      cases u <;> (intro hs; exact absurd hs (by simp [stepStore, UpdateStage.toStage]))
  | workerComplete elementInfo result =>
    cases elementInfo with
    | false => simpa [stepStore] using h
    | true => intro hs; exact absurd hs (by simp [stepStore])
  | workerError msg => intro _; simp [stepStore]
  | workerScriptError msg => intro _; simp [stepStore]
  | initFailure msg => intro _; simp [stepStore]
  | initSuccess => intro hs; exact absurd hs (by simp [stepStore])
  | workerCreated w => simpa [stepStore] using h
  | promiseStored p => simpa [stepStore] using h
  | processStart => intro hs; exact absurd hs (by simp [stepStore])
  | processFailure msg => intro _; simp [stepStore]
  | terminateWorker =>
    by_cases hw : s.worker.isSome
    · intro hs; exact absurd hs (by simp [stepStore, hw])
    · simpa [stepStore, hw] using h
  | resetState => intro hs; exact absurd hs (by simp [stepStore])

/-- C8: in every state the store can reach from its initial state,
`processingStatus.stage = error` implies
`processingStatus.isProcessing = false` — every transition that sets the
stage to `error` (worker-reported errors, worker/script failures,
initialization failure, `processSelectedElement` failure) also resets the
processing flag, and no reachable `update` transition can produce an
`error` stage with the flag set. -/
theorem C8_error_stage_resets_processing (events : List StoreEvent)
    (herr : (runStore events).processingStatus.stage = Stage.error) :
    (runStore events).processingStatus.isProcessing = false := by
  suffices h : ∀ s : StoreState,
      (s.processingStatus.stage = Stage.error →
        s.processingStatus.isProcessing = false) →
      ((events.foldl stepStore s).processingStatus.stage = Stage.error →
        (events.foldl stepStore s).processingStatus.isProcessing = false) by
    exact h initialStore (fun hs => absurd hs (by simp [initialStore])) herr
  clear herr
  induction events with
  | nil => intro s hs; exact hs
  | cons e es ih => intro s hs; exact ih (stepStore s e) (stepStore_error_inv s e hs)

/-- Witness for C8: a worker error from the initial state leaves the store
in `error` stage with the processing flag cleared. -/
theorem C8_error_stage_witness :
    (runStore [StoreEvent.workerError "boom"]).processingStatus.isProcessing = false :=
  C8_error_stage_resets_processing [StoreEvent.workerError "boom"] rfl

/-- C9: calling `initializeWorker` while an initialization promise is
stored returns exactly that promise and leaves the whole store state
unchanged — no new worker is created and no field is modified. -/
theorem C9_initializeWorker_single_flight (s : StoreState)
    (freshWorker freshPromise p : ℕ)
    (h : s.initializationPromise = some p) :
    initializeWorker s freshWorker freshPromise = (s, p) := by
  unfold initializeWorker
  rw [h]

/-- Witness for C9 at a concrete in-flight store. -/
theorem C9_initializeWorker_single_flight_witness :
    initializeWorker { initialStore with initializationPromise := some 7 } 1 2 =
      ({ initialStore with initializationPromise := some 7 }, 7) :=
  C9_initializeWorker_single_flight _ 1 2 7 rfl

/-! ## Streamer progress theorems (C7) -/

theorem streamStep_emit_le (chunkLen strideLen : ℚ) (s : StreamState)
    (e : StreamEvent) : ∀ p ∈ (streamStep chunkLen strideLen s e).2, p ≤ 95 := by
  cases e with
  | chunkStart x => intro p hp; simp [streamStep] at hp
  | textPiece t =>
    intro p hp
    by_cases hempty : s.chunks.isEmpty
    · simp [streamStep, hempty] at hp
    · simp [streamStep, hempty] at hp
      rw [← hp]
      exact min_le_left _ _
  | chunkEnd x => intro p hp; simp [streamStep] at hp
  | finalizeWindow => intro p hp; simp [streamStep] at hp

/-- C7 (amended): every progress percentage posted by the streamer's
`callback_function` equals `min(95, chunk_count·15 + chunks.length·5)` at
the posting state — where `chunks.length` counts all chunk records opened
so far, the still-open one included, not only the finalized ones — and no
posted percentage ever exceeds 95. -/
theorem C7_progress_heuristic_amended :
    (∀ (chunkLen strideLen : ℚ) (s : StreamState) (e : StreamEvent)
      (s' : StreamState) (p : ℕ),
      streamStep chunkLen strideLen s e = (s', some p) →
      p = min 95 (s.chunk_count * 15 + s.chunks.length * 5) ∧ p ≤ 95) ∧
    (∀ (chunkLen strideLen : ℚ) (events : List StreamEvent) (p : ℕ),
      p ∈ (runStreamer chunkLen strideLen events).2 → p ≤ 95) := by
  constructor
  · intro chunkLen strideLen s e s' p heq
    cases e with
    | chunkStart x => simp [streamStep] at heq
    | textPiece t =>
      by_cases hempty : s.chunks.isEmpty
      · simp [streamStep, hempty] at heq
      · simp only [streamStep, hempty, Bool.false_eq_true, if_false,
          Prod.mk.injEq] at heq
        obtain ⟨-, hp⟩ := heq
        obtain rfl : min 95 (s.chunk_count * 15 + s.chunks.length * 5) = p :=
          Option.some_injective _ hp
        exact ⟨rfl, min_le_left _ _⟩
    | chunkEnd x => simp [streamStep] at heq
    | finalizeWindow => simp [streamStep] at heq
  · intro chunkLen strideLen events p
    suffices h : ∀ acc : StreamState × List ℕ, (∀ q ∈ acc.2, q ≤ 95) →
        ∀ q ∈ (events.foldl
          (fun acc e =>
            ((streamStep chunkLen strideLen acc.1 e).1,
             acc.2 ++ (streamStep chunkLen strideLen acc.1 e).2.toList)) acc).2,
        q ≤ 95 by
      exact h (⟨[], 0⟩, []) (by simp) p
    induction events with
    | nil => intro acc hacc; exact hacc
    | cons e es ih =>
      intro acc hacc
      refine ih _ ?_
      intro q hq
      rcases List.mem_append.mp hq with hq' | hq'
      · exact hacc q hq'
      · exact streamStep_emit_le chunkLen strideLen acc.1 e q
          (Option.mem_toList.mp hq')

/-- Witness for C7 (amended) at a concrete streaming step and trace. -/
theorem C7_progress_heuristic_witness :
    ((5 : ℕ) = min 95 (0 * 15 + 1 * 5) ∧ (5 : ℕ) ≤ 95) ∧ (5 : ℕ) ≤ 95 := by
  constructor
  · exact C7_progress_heuristic_amended.1 30 5
      ⟨[⟨"", 0, none, false, 0⟩], 0⟩ (.textPiece "x")
      ⟨[⟨"x", 0, none, false, 0⟩], 0⟩ 5 rfl
  · refine C7_progress_heuristic_amended.2 30 5
      [.chunkStart 0, .textPiece "hi"] 5 ?_
    show (5 : ℕ) ∈ [5]
    simp

/-! ## Decimal-digit lemmas (C5) -/

theorem digitsVal_natDigitsAux : ∀ fuel n : ℕ, n < fuel →
    digitsVal (natDigitsAux fuel n) = n := by
  intro fuel
  induction fuel with
  | zero => intro n h; omega
  | succ f ih =>
    intro n h
    rw [natDigitsAux]
    by_cases h10 : n < 10
    · rw [if_pos h10]; simp [digitsVal]
    · rw [if_neg h10, digitsVal, ih (n / 10) (by omega)]
      omega

theorem natDigitsAux_lt_ten : ∀ fuel n : ℕ, ∀ d ∈ natDigitsAux fuel n, d < 10 := by
  intro fuel
  induction fuel with
  | zero => intro n d hd; simp [natDigitsAux] at hd
  | succ f ih =>
    intro n d hd
    rw [natDigitsAux] at hd
    by_cases h10 : n < 10
    · rw [if_pos h10] at hd; simp at hd; omega
    · rw [if_neg h10] at hd
      rcases List.mem_cons.mp hd with rfl | hd'
      · omega
      · exact ih _ d hd'

theorem natDigitsAux_ne_nil (fuel n : ℕ) : natDigitsAux (fuel + 1) n ≠ [] := by
  rw [natDigitsAux]; split <;> simp

theorem digitChar_isDigit {d : ℕ} (h : d < 10) :
    (Char.ofNat (48 + d)).isDigit = true := by
  interval_cases d <;> decide

theorem digitChar_toNat {d : ℕ} (h : d < 10) :
    (Char.ofNat (48 + d)).toNat - 48 = d := by
  interval_cases d <;> decide

theorem isDigit_ne_seps {c : Char} (h : c.isDigit = true) :
    c ≠ ':' ∧ c ≠ ',' ∧ c ≠ ' ' ∧ c ≠ '\n' := by
  refine ⟨?_, ?_, ?_, ?_⟩ <;> (rintro rfl; exact absurd h (by decide))

theorem natRepr_all_digits (n : ℕ) : ∀ c ∈ (natRepr n).data, c.isDigit = true := by
  intro c hc
  simp only [natRepr, List.mem_map, List.mem_reverse] at hc
  obtain ⟨d, hd, rfl⟩ := hc
  exact digitChar_isDigit (natDigitsAux_lt_ten _ _ d hd)

theorem padStart_zero_digits (n k : ℕ) :
    ∀ c ∈ (padStart (natRepr n) k '0').data, c.isDigit = true := by
  intro c hc
  simp only [padStart, List.mem_append] at hc
  rcases hc with hrep | hmem
  · rw [List.eq_of_mem_replicate hrep]; decide
  · exact natRepr_all_digits n c hmem

theorem foldl_digit_chars (ds : List ℕ) (hds : ∀ d ∈ ds, d < 10) :
    ∀ a : ℕ, (ds.map fun d => Char.ofNat (48 + d)).foldl
      (fun acc c => acc * 10 + (c.toNat - 48)) a =
      ds.foldl (fun acc d => acc * 10 + d) a := by
  induction ds with
  | nil => intro a; rfl
  | cons d ds ih =>
    intro a
    simp only [List.map_cons, List.foldl_cons]
    rw [digitChar_toNat (hds d (by simp))]
    exact ih (fun x hx => hds x (by simp [hx])) _

theorem foldl_base10_reverse (le : List ℕ) : ∀ a : ℕ,
    le.reverse.foldl (fun acc d => acc * 10 + d) a =
      a * 10 ^ le.length + digitsVal le := by
  induction le with
  | nil => intro a; simp [digitsVal]
  | cons d ds ih =>
    intro a
    simp only [List.reverse_cons, List.foldl_append, List.foldl_cons,
      List.foldl_nil, ih, digitsVal, List.length_cons, pow_succ]
    ring

theorem foldl_zero_chars (k : ℕ) : ∀ a : ℕ,
    (List.replicate k '0').foldl (fun acc c => acc * 10 + (c.toNat - 48)) a =
      a * 10 ^ k := by
  induction k with
  | zero => intro a; simp
  | succ k ih =>
    intro a
    have h0 : '0'.toNat - 48 = 0 := by decide
    simp only [List.replicate_succ, List.foldl_cons, h0, Nat.add_zero, ih, pow_succ]
    ring

theorem parseNatChars_pad_natRepr (k n : ℕ) :
    parseNatChars (List.replicate k '0' ++ (natRepr n).data) = some n := by
  have hne : (natRepr n).data ≠ [] := by
    simp only [natRepr]
    intro hcon
    rw [List.map_eq_nil_iff, List.reverse_eq_nil_iff] at hcon
    exact natDigitsAux_ne_nil n n hcon
  unfold parseNatChars
  rw [if_pos ?_]
  · congr 1
    rw [List.foldl_append, foldl_zero_chars, zero_mul]
    show ((natDigitsAux (n + 1) n).reverse.map fun d => Char.ofNat (48 + d)).foldl
      (fun acc c => acc * 10 + (c.toNat - 48)) 0 = n
    rw [foldl_digit_chars _ (fun d hd =>
      natDigitsAux_lt_ten _ _ d (List.mem_reverse.mp hd))]
    rw [foldl_base10_reverse, zero_mul, zero_add,
      digitsVal_natDigitsAux (n + 1) n (by omega)]
  · constructor
    · simp [hne]
    · rw [List.all_eq_true]
      intro c hc
      rcases List.mem_append.mp hc with hrep | hmem
      · rw [List.eq_of_mem_replicate hrep]; decide
      · exact natRepr_all_digits n c hmem

theorem parseNatChars_padStart (n k : ℕ) :
    parseNatChars (padStart (natRepr n) k '0').data = some n :=
  parseNatChars_pad_natRepr _ n

/-! ## Splitting lemmas (C5) -/

theorem splitOnPred_append_sep (p : Char → Bool) (a : List Char) (sep : Char)
    (b : List Char) (ha : ∀ c ∈ a, p c = false) (hsep : p sep = true) :
    splitOnPred p (a ++ sep :: b) = a :: splitOnPred p b := by
  induction a with
  | nil =>
    show splitOnPred p (sep :: b) = [] :: splitOnPred p b
    rw [splitOnPred, if_pos hsep]
  | cons c a' ih =>
    rw [List.cons_append, splitOnPred,
      if_neg (by simp [ha c (by simp)]),
      ih (fun x hx => ha x (by simp [hx]))]

theorem splitOnPred_no_sep (p : Char → Bool) (a : List Char)
    (ha : ∀ c ∈ a, p c = false) : splitOnPred p a = [a] := by
  induction a with
  | nil => rfl
  | cons c a' ih =>
    rw [splitOnPred, if_neg (by simp [ha c (by simp)]),
      ih (fun x hx => ha x (by simp [hx]))]

theorem splitOnChar_append_sep (sep : Char) (a b : List Char)
    (ha : ∀ c ∈ a, c ≠ sep) :
    splitOnChar sep (a ++ sep :: b) = a :: splitOnChar sep b :=
  splitOnPred_append_sep _ a sep b
    (fun c hc => by simpa using ha c hc) (by simp)

theorem splitOnChar_no_sep (sep : Char) (a : List Char)
    (ha : ∀ c ∈ a, c ≠ sep) : splitOnChar sep a = [a] :=
  splitOnPred_no_sep _ a (fun c hc => by simpa using ha c hc)

/-! ## Rendering a natural-number time (C5) -/

theorem floorDivNat (m n : ℕ) :
    ⌊(m : ℚ) / (n : ℚ)⌋ = ((m / n : ℕ) : ℤ) := by
  rw [Rat.floor_natCast_div_natCast]
  exact (Int.natCast_div m n).symm

theorem jsMod_natCast (m n : ℕ) :
    jsMod (m : ℚ) (n : ℚ) = ((m % n : ℕ) : ℚ) := by
  unfold jsMod
  rw [floorDivNat]
  have h := Nat.div_add_mod m n
  have h' : ((n : ℚ)) * ((m / n : ℕ) : ℚ) + ((m % n : ℕ) : ℚ) = (m : ℚ) := by
    exact_mod_cast congrArg (fun k : ℕ => (k : ℚ)) h
  rw [show (((m / n : ℕ) : ℤ) : ℚ) = ((m / n : ℕ) : ℚ) from by push_cast; rfl]
  linarith

theorem jsIntToString_natCast (k : ℕ) : jsIntToString (k : ℤ) = natRepr k := by
  unfold jsIntToString
  rw [if_pos (Int.natCast_nonneg k)]
  simp

theorem jsRatToString_natCast (r : ℕ) : jsRatToString (r : ℚ) = natRepr r := by
  unfold jsRatToString
  rw [if_pos (by simp), Rat.num_natCast, jsIntToString_natCast]

theorem millisecondsToSRTTime_natCast (ms : ℕ) :
    millisecondsToSRTTime (ms : ℚ) =
      padStart (natRepr (ms / 3600000)) 2 '0' ++ ":" ++
      padStart (natRepr (ms % 3600000 / 60000)) 2 '0' ++ ":" ++
      padStart (natRepr (ms % 60000 / 1000)) 2 '0' ++ "," ++
      padStart (natRepr (ms % 1000)) 3 '0' := by
  unfold millisecondsToSRTTime
  have c36 : ((3600000 : ℚ)) = ((3600000 : ℕ) : ℚ) := by norm_num
  have c6 : ((60000 : ℚ)) = ((60000 : ℕ) : ℚ) := by norm_num
  have c1 : ((1000 : ℚ)) = ((1000 : ℕ) : ℚ) := by norm_num
  rw [c36, c6, c1, jsMod_natCast, jsMod_natCast, jsMod_natCast,
    floorDivNat, floorDivNat, floorDivNat,
    jsIntToString_natCast, jsIntToString_natCast, jsIntToString_natCast,
    jsRatToString_natCast]

theorem millisecondsToSRTTime_digit_chars (ms : ℕ) :
    ∀ c ∈ (millisecondsToSRTTime (ms : ℚ)).data,
      c.isDigit = true ∨ c = ':' ∨ c = ',' := by
  rw [millisecondsToSRTTime_natCast]
  intro c hc
  simp only [String.data_append, List.mem_append,
    show (":" : String).data = [':'] from rfl,
    show ("," : String).data = [','] from rfl, List.mem_cons,
    List.not_mem_nil, or_false] at hc
  rcases hc with ((((((h | h) | h) | h) | h) | h) | h)
  · exact Or.inl (padStart_zero_digits _ 2 c h)
  · exact Or.inr (Or.inl h)
  · exact Or.inl (padStart_zero_digits _ 2 c h)
  · exact Or.inr (Or.inl h)
  · exact Or.inl (padStart_zero_digits _ 2 c h)
  · exact Or.inr (Or.inr h)
  · exact Or.inl (padStart_zero_digits _ 3 c h)

theorem parseSRTTimeChars_render (ms : ℕ) :
    parseSRTTimeChars (millisecondsToSRTTime (ms : ℚ)).data = some ms := by
  rw [millisecondsToSRTTime_natCast]
  have hdata :
      (padStart (natRepr (ms / 3600000)) 2 '0' ++ ":" ++
        padStart (natRepr (ms % 3600000 / 60000)) 2 '0' ++ ":" ++
        padStart (natRepr (ms % 60000 / 1000)) 2 '0' ++ "," ++
        padStart (natRepr (ms % 1000)) 3 '0').data =
      (padStart (natRepr (ms / 3600000)) 2 '0').data ++ ':' ::
        ((padStart (natRepr (ms % 3600000 / 60000)) 2 '0').data ++ ':' ::
          ((padStart (natRepr (ms % 60000 / 1000)) 2 '0').data ++ ',' ::
            (padStart (natRepr (ms % 1000)) 3 '0').data)) := by
    simp [String.data_append, show (":" : String).data = [':'] from rfl,
      show ("," : String).data = [','] from rfl]
  rw [hdata]
  unfold parseSRTTimeChars
  rw [splitOnChar_append_sep ':' _ _
    (fun c hc => (isDigit_ne_seps (padStart_zero_digits _ 2 c hc)).1),
    splitOnChar_append_sep ':' _ _
    (fun c hc => (isDigit_ne_seps (padStart_zero_digits _ 2 c hc)).1),
    splitOnChar_no_sep ':' _ ?_]
  · dsimp only
    rw [splitOnChar_append_sep ',' _ _
      (fun c hc => (isDigit_ne_seps (padStart_zero_digits _ 2 c hc)).2.1),
      splitOnChar_no_sep ',' _
      (fun c hc => (isDigit_ne_seps (padStart_zero_digits _ 3 c hc)).2.1)]
    dsimp only
    rw [parseNatChars_padStart, parseNatChars_padStart, parseNatChars_padStart,
      parseNatChars_padStart]
    dsimp only
    congr 1
    omega
  · intro c hc
    rcases List.mem_append.mp hc with h | h
    · exact (isDigit_ne_seps (padStart_zero_digits _ 2 c h)).1
    · rcases List.mem_cons.mp h with rfl | h'
      · decide
      · exact (isDigit_ne_seps (padStart_zero_digits _ 3 c h')).1

/-! ## Time-range line round-trip (C5) -/

theorem parseNatChars_natRepr (n : ℕ) :
    parseNatChars (natRepr n).data = some n := by
  have h := parseNatChars_pad_natRepr 0 n
  simpa using h

theorem millisecondsToSRTTime_no_space (ms : ℕ) :
    ∀ c ∈ (millisecondsToSRTTime (ms : ℚ)).data, c ≠ ' ' := by
  intro c hc
  rcases millisecondsToSRTTime_digit_chars ms c hc with h | rfl | rfl
  · exact (isDigit_ne_seps h).2.2.1
  · decide
  · decide

theorem millisecondsToSRTTime_no_newline (ms : ℕ) :
    ∀ c ∈ (millisecondsToSRTTime (ms : ℚ)).data, c ≠ '\n' := by
  intro c hc
  rcases millisecondsToSRTTime_digit_chars ms c hc with h | rfl | rfl
  · exact (isDigit_ne_seps h).2.2.2
  · decide
  · decide

theorem parseSRTTimeLineChars_render (a b : ℕ) :
    parseSRTTimeLineChars ((millisecondsToSRTTime (a : ℚ) ++ " --> " ++
      millisecondsToSRTTime (b : ℚ)).data) = some (a, b) := by
  have hdata : ((millisecondsToSRTTime (a : ℚ) ++ " --> " ++
      millisecondsToSRTTime (b : ℚ)).data) =
      (millisecondsToSRTTime (a : ℚ)).data ++ ' ' ::
        (['-', '-', '>'] ++ ' ' :: (millisecondsToSRTTime (b : ℚ)).data) := by
    simp [String.data_append,
      show (" --> " : String).data = [' ', '-', '-', '>', ' '] from rfl]
  rw [hdata]
  unfold parseSRTTimeLineChars
  rw [splitOnChar_append_sep ' ' _ _ (millisecondsToSRTTime_no_space a),
    splitOnChar_append_sep ' ' _ _ (by decide),
    splitOnChar_no_sep ' ' _ (millisecondsToSRTTime_no_space b)]
  dsimp only
  rw [if_pos rfl, parseSRTTimeChars_render, parseSRTTimeChars_render]

/-! ## Line decomposition of the rendered document (C5) -/

theorem intercalate_go_data (s : String) : ∀ (as : List String) (acc : String),
    (String.intercalate.go acc s as).data =
      acc.data ++ as.flatMap fun a => s.data ++ a.data := by
  intro as
  induction as with
  | nil => intro acc; simp [String.intercalate.go]
  | cons a as ih =>
    intro acc
    rw [String.intercalate.go, ih]
    simp [String.data_append]

theorem intercalate_data_cons (s a : String) (as : List String) :
    (String.intercalate s (a :: as)).data =
      a.data ++ as.flatMap fun x => s.data ++ x.data := by
  rw [String.intercalate, intercalate_go_data]

theorem splitOnChar_cons_sep (sep : Char) (b : List Char) :
    splitOnChar sep (sep :: b) = [] :: splitOnChar sep b := by
  unfold splitOnChar
  rw [splitOnPred, if_pos (by simp)]

theorem splitOnPred_append_sep_general (p : Char → Bool) (sep : Char)
    (hsep : p sep = true) : ∀ a b : List Char,
    splitOnPred p (a ++ sep :: b) = splitOnPred p a ++ splitOnPred p b := by
  intro a
  induction a with
  | nil =>
    intro b
    show splitOnPred p (sep :: b) = [] :: splitOnPred p b
    rw [splitOnPred, if_pos hsep]
  | cons c a' ih =>
    intro b
    rw [List.cons_append, splitOnPred]
    by_cases hc : p c
    · rw [if_pos hc, ih]
      rw [show splitOnPred p (c :: a') = [] :: splitOnPred p a' from by
        rw [splitOnPred, if_pos hc]]
      rfl
    · rw [if_neg hc, ih]
      rw [show splitOnPred p (c :: a') =
          (match splitOnPred p a' with
            | [] => [[c]]
            | l :: ls => (c :: l) :: ls) from by
        rw [splitOnPred, if_neg hc]]
      cases hsp : splitOnPred p a' with
      | nil => exact absurd hsp (splitOnPred_ne_nil p a')
      | cons l ls => rfl

theorem splitOnChar_append_sep_general (sep : Char) (a b : List Char) :
    splitOnChar sep (a ++ sep :: b) = splitOnChar sep a ++ splitOnChar sep b :=
  splitOnPred_append_sep_general _ sep (by simp) a b

theorem splitOnChar_ne_nil (sep : Char) (l : List Char) :
    splitOnChar sep l ≠ [] :=
  splitOnPred_ne_nil _ _

theorem splitOnChar_cons_not_sep (sep c : Char) (hc : c ≠ sep) (b : List Char) :
    splitOnChar sep (c :: b) =
      match splitOnChar sep b with
      | [] => [[c]]
      | l :: ls => (c :: l) :: ls := by
  unfold splitOnChar
  rw [splitOnPred, if_neg (by simpa using hc)]

theorem splitOnChar_reconstruct (sep : Char) : ∀ (l h : List Char)
    (tl : List (List Char)), splitOnChar sep l = h :: tl →
    h ++ tl.flatMap (fun piece => sep :: piece) = l := by
  intro l
  induction l with
  | nil =>
    intro h tl heq
    have h2 : ([[]] : List (List Char)) = h :: tl := heq
    injection h2 with h1 h2
    subst h1
    subst h2
    rfl
  | cons c cs ih =>
    intro h tl heq
    by_cases hc : c = sep
    · subst hc
      rw [splitOnChar_cons_sep] at heq
      injection heq with h1 h2
      subst h1
      cases hsp : splitOnChar c cs with
      | nil => exact absurd hsp (splitOnChar_ne_nil _ _)
      | cons h' tl' =>
        rw [← h2, hsp]
        simp only [List.flatMap_cons, List.nil_append, List.cons_append]
        rw [ih h' tl' hsp]
    · rw [splitOnChar_cons_not_sep sep c hc] at heq
      cases hsp : splitOnChar sep cs with
      | nil => exact absurd hsp (splitOnChar_ne_nil _ _)
      | cons l' ls' =>
        rw [hsp] at heq
        injection heq with h1 h2
        subst h2
        rw [← h1, List.cons_append, ih l' ls' hsp]

theorem intercalate_splitOnChar (tc : List Char) :
    String.intercalate "\n" ((splitOnChar '\n' tc).map fun l => (⟨l⟩ : String)) =
      ⟨tc⟩ := by
  cases hsp : splitOnChar '\n' tc with
  | nil => exact absurd hsp (splitOnChar_ne_nil _ _)
  | cons h tl =>
    apply String.ext
    rw [List.map_cons, intercalate_data_cons]
    show h ++ (tl.map fun l => (⟨l⟩ : String)).flatMap
      (fun x => ("\n" : String).data ++ x.data) = tc
    rw [show ("\n" : String).data = ['\n'] from rfl, List.flatMap_map]
    simpa using splitOnChar_reconstruct '\n' tc h tl hsp

theorem takeWhile_all_append {α : Type} (p : α → Bool) (a b : List α)
    (ha : ∀ x ∈ a, p x = true) :
    (a ++ b).takeWhile p = a ++ b.takeWhile p := by
  induction a with
  | nil => simp
  | cons x a' ih =>
    have hx := ha x (by simp)
    simp [List.takeWhile_cons, hx, ih (fun y hy => ha y (by simp [hy]))]

theorem dropWhile_all_append {α : Type} (p : α → Bool) (a b : List α)
    (ha : ∀ x ∈ a, p x = true) :
    (a ++ b).dropWhile p = b.dropWhile p := by
  induction a with
  | nil => simp
  | cons x a' ih =>
    have hx := ha x (by simp)
    simp [List.dropWhile_cons, hx, ih (fun y hy => ha y (by simp [hy]))]

theorem srt_lines : ∀ items : List SRTItem,
    (∀ it ∈ items, (∀ c ∈ it.idxChars, c ≠ '\n') ∧
      (∀ c ∈ it.timeChars, c ≠ '\n')) →
    items ≠ [] →
    splitOnChar '\n' ((String.intercalate "\n" (items.map SRTItem.block)).data) =
      items.flatMap fun it =>
        it.idxChars :: it.timeChars :: (splitOnChar '\n' it.textChars ++ [[]]) := by
  intro items
  induction items with
  | nil => intro _ h; exact absurd rfl h
  | cons it its ih =>
    intro hnl _
    obtain ⟨h1, h2⟩ := hnl it (by simp)
    cases its with
    | nil =>
      simp only [List.map_cons, List.map_nil, List.flatMap_cons, List.flatMap_nil]
      rw [intercalate_data_cons]
      simp only [List.flatMap_nil, List.append_nil, SRTItem.block]
      rw [splitOnChar_append_sep '\n' _ _ h1, splitOnChar_append_sep '\n' _ _ h2,
        splitOnChar_append_sep_general '\n' it.textChars []]
      rfl
    | cons it2 its2 =>
      have hL : (String.intercalate "\n" ((it :: it2 :: its2).map SRTItem.block)).data =
          it.idxChars ++ '\n' :: (it.timeChars ++ '\n' :: (it.textChars ++ '\n' :: '\n' ::
            (String.intercalate "\n" ((it2 :: its2).map SRTItem.block)).data)) := by
        rw [List.map_cons, intercalate_data_cons, List.map_cons, intercalate_data_cons]
        simp [SRTItem.block, show ("\n" : String).data = ['\n'] from rfl]
      rw [hL, splitOnChar_append_sep '\n' _ _ h1, splitOnChar_append_sep '\n' _ _ h2,
        splitOnChar_append_sep_general '\n' it.textChars, splitOnChar_cons_sep,
        ih (fun x hx => hnl x (by simp [hx])) (by simp)]
      simp

theorem timeline_no_newline (a b : ℕ) :
    ∀ c ∈ (millisecondsToSRTTime (a : ℚ) ++ " --> " ++
      millisecondsToSRTTime (b : ℚ)).data, c ≠ '\n' := by
  intro c hc
  simp only [String.data_append, List.mem_append,
    show (" --> " : String).data = [' ', '-', '-', '>', ' '] from rfl] at hc
  rcases hc with (h | h) | h
  · exact millisecondsToSRTTime_no_newline a c h
  · simp only [List.mem_cons, List.not_mem_nil, or_false] at h
    rcases h with rfl | rfl | rfl | rfl | rfl <;> decide
  · exact millisecondsToSRTTime_no_newline b c h

theorem splitOnPred_length_le (p : Char → Bool) (l : List Char) :
    (splitOnPred p l).length ≤ l.length + 1 := by
  induction l with
  | nil => simp [splitOnPred]
  | cons c cs ih =>
    rw [splitOnPred]
    split
    · simpa using Nat.succ_le_succ ih
    · cases hr : splitOnPred p cs with
      | nil => simp
      | cons x xs => rw [hr] at ih; simpa using Nat.le_succ_of_le ih

theorem parseSRTBlocks_items : ∀ (items : List SRTItem) (fuel : ℕ),
    items.length ≤ fuel →
    (∀ it ∈ items, (parseNatChars it.idxChars).isSome = true ∧
      parseSRTTimeLineChars it.timeChars = some (it.startMs, it.endMs) ∧
      ∀ l ∈ splitOnChar '\n' it.textChars, l ≠ []) →
    parseSRTBlocks fuel (items.flatMap fun it =>
      it.idxChars :: it.timeChars :: (splitOnChar '\n' it.textChars ++ [[]])) =
      some (items.map fun it => (it.startMs, it.endMs, (⟨it.textChars⟩ : String))) := by
  intro items
  induction items with
  | nil => intro fuel _ _; cases fuel <;> rfl
  | cons it its ih =>
    intro fuel hfuel hok
    obtain ⟨hidx, htl, htx⟩ := hok it (by simp)
    cases fuel with
    | zero => simp at hfuel
    | succ f =>
      rw [List.flatMap_cons]
      simp only [List.cons_append]
      obtain ⟨k, hk⟩ := Option.isSome_iff_exists.mp hidx
      rw [parseSRTBlocks, hk, htl]
      have htake : ((splitOnChar '\n' it.textChars ++ [[]]) ++
          (its.flatMap fun x =>
            x.idxChars :: x.timeChars ::
              (splitOnChar '\n' x.textChars ++ [[]]))).takeWhile
            (fun l => l ≠ []) = splitOnChar '\n' it.textChars := by
        rw [List.append_assoc,
          takeWhile_all_append _ _ _ (fun x hx => by simpa using htx x hx)]
        simp
      have hdrop : (((splitOnChar '\n' it.textChars ++ [[]]) ++
          (its.flatMap fun x =>
            x.idxChars :: x.timeChars ::
              (splitOnChar '\n' x.textChars ++ [[]]))).dropWhile
            (fun l => l ≠ [])).drop 1 =
          its.flatMap fun x =>
            x.idxChars :: x.timeChars :: (splitOnChar '\n' x.textChars ++ [[]]) := by
        rw [List.append_assoc,
          dropWhile_all_append _ _ _ (fun x hx => by simpa using htx x hx)]
        simp
      have hfuel' : its.length ≤ f := by
        simp only [List.length_cons] at hfuel
        omega
      rw [htake, hdrop, ih f hfuel' (fun x hx => hok x (by simp [hx]))]
      dsimp only
      rw [if_neg (splitOnChar_ne_nil '\n' it.textChars),
        intercalate_splitOnChar it.textChars]
      rfl

theorem mem_mapIdx_exists {α β : Type} {l : List α} {f : ℕ → α → β} {b : β}
    (hb : b ∈ l.mapIdx f) : ∃ i, ∃ h : i < l.length, b = f i l[i] := by
  obtain ⟨i, hi, hbi⟩ := List.mem_iff_getElem.mp hb
  refine ⟨i, by simpa using hi, ?_⟩
  rw [← hbi, List.getElem_mapIdx]

theorem transcriptToSRT_eq_blocks (t : Transcript) :
    transcriptToSRT t = String.intercalate "\n" ((srtItems t).map SRTItem.block) := by
  unfold transcriptToSRT srtItems
  congr 1
  apply List.ext_getElem
  · simp
  · intro i h1 h2
    simp only [List.getElem_map, List.getElem_mapIdx]
    apply String.ext
    simp [SRTItem.block, String.data_append,
      show ("\n" : String).data = ['\n'] from rfl]

theorem natDigitsAux_length_le : ∀ fuel n k : ℕ, n < 10 ^ k → 0 < k →
    (natDigitsAux fuel n).length ≤ k := by
  intro fuel
  induction fuel with
  | zero => intro n k _ _; simp [natDigitsAux]
  | succ f ih =>
    intro n k hn hk
    rw [natDigitsAux]
    by_cases h10 : n < 10
    · rw [if_pos h10]; simpa using hk
    · rw [if_neg h10]
      have hk2 : 2 ≤ k := by
        by_contra hcon
        have hk1 : k = 1 := by omega
        subst hk1
        simp at hn
        omega
      have hpow : 10 ^ k = 10 * 10 ^ (k - 1) := by
        rw [← pow_succ']
        congr 1
        omega
      have hdiv : n / 10 < 10 ^ (k - 1) := by omega
      have := ih (n / 10) (k - 1) hdiv (by omega)
      simp only [List.length_cons]
      omega

theorem padStart_natRepr_length {n k w : ℕ} (hn : n < 10 ^ w) (hw : 0 < w)
    (hwk : w ≤ k) : (padStart (natRepr n) k '0').data.length = k := by
  have hlen : (natDigitsAux (n + 1) n).length ≤ w :=
    natDigitsAux_length_le _ n w hn hw
  simp only [padStart, natRepr, List.length_append, List.length_replicate,
    List.length_map, List.length_reverse]
  omega

theorem millisecondsToSRTTime_length (ms : ℕ) (h : ms < 360000000) :
    (millisecondsToSRTTime (ms : ℚ)).data.length = 12 := by
  rw [millisecondsToSRTTime_natCast]
  simp only [String.data_append, List.length_append,
    show (":" : String).data = [':'] from rfl,
    show ("," : String).data = [','] from rfl, List.length_cons, List.length_nil]
  rw [padStart_natRepr_length (show ms / 3600000 < 10 ^ 2 by norm_num; omega)
      (by norm_num) (le_refl 2),
    padStart_natRepr_length (show ms % 3600000 / 60000 < 10 ^ 2 by norm_num; omega)
      (by norm_num) (le_refl 2),
    padStart_natRepr_length (show ms % 60000 / 1000 < 10 ^ 2 by norm_num; omega)
      (by norm_num) (le_refl 2),
    padStart_natRepr_length (show ms % 1000 < 10 ^ 3 by norm_num; omega)
      (by norm_num) (le_refl 3)]

theorem flatMap_lines_length_ge (items : List SRTItem) :
    items.length ≤ (items.flatMap fun it =>
      it.idxChars :: it.timeChars ::
        (splitOnChar '\n' it.textChars ++ [[]])).length := by
  induction items with
  | nil => simp
  | cons it its ih =>
    simp only [List.flatMap_cons, List.length_append, List.length_cons,
      List.length_nil]
    omega

/-- C5: `transcriptToSRT` emits one block per chunk — 1-based index, a
zero-padded `HH:MM:SS,mmm --> HH:MM:SS,mmm` range (width 12 whenever the
time is below 100 hours, millisecond field width 3), the trimmed chunk
text — with blocks separated by a blank line; re-parsing the output with
a standard SRT parser recovers the chunk count, the trimmed texts, and
the original integer-millisecond start/end times, for every transcript
whose chunk times are integer milliseconds and whose trimmed texts
contain no blank line (every line of each trimmed text is non-empty;
interior newlines are fine, so multi-line cue texts round-trip). -/
theorem C5_srt_format_and_roundtrip (t : Transcript)
    (htimes : ∀ c ∈ t.chunks,
      (∃ ms : ℕ, c.startTime = (ms : ℚ)) ∧ ∃ ms : ℕ, c.endTime = (ms : ℚ))
    (htext : ∀ c ∈ t.chunks,
      ∀ l ∈ splitOnChar '\n' (jsTrim c.text).data, l ≠ []) :
    transcriptToSRT t = String.intercalate "\n" (t.chunks.mapIdx fun index chunk =>
        natRepr (index + 1) ++ "\n" ++
        millisecondsToSRTTime chunk.startTime ++ " --> " ++
        millisecondsToSRTTime chunk.endTime ++ "\n" ++
        jsTrim chunk.text ++ "\n") ∧
    (∀ ms : ℕ, ms < 360000000 → (millisecondsToSRTTime (ms : ℚ)).data.length = 12) ∧
    parseSRT (transcriptToSRT t) =
      some (t.chunks.map fun c =>
        (⌊c.startTime⌋.toNat, ⌊c.endTime⌋.toNat, jsTrim c.text)) ∧
    (parseSRT (transcriptToSRT t)).map List.length = some t.chunks.length := by
  have hitems_ok : ∀ it ∈ srtItems t,
      (parseNatChars it.idxChars).isSome = true ∧
      parseSRTTimeLineChars it.timeChars = some (it.startMs, it.endMs) ∧
      ∀ l ∈ splitOnChar '\n' it.textChars, l ≠ [] := by
    intro it hit
    unfold srtItems at hit
    obtain ⟨i, hi, rfl⟩ := mem_mapIdx_exists hit
    obtain ⟨⟨msA, hA⟩, msB, hB⟩ := htimes (t.chunks[i]) (List.getElem_mem hi)
    refine ⟨?_, ?_, htext (t.chunks[i]) (List.getElem_mem hi)⟩
    · dsimp only
      rw [parseNatChars_natRepr]
      rfl
    · dsimp only
      rw [hA, hB, parseSRTTimeLineChars_render]
      simp
  have hnl : ∀ it ∈ srtItems t,
      (∀ c ∈ it.idxChars, c ≠ '\n') ∧ (∀ c ∈ it.timeChars, c ≠ '\n') := by
    intro it hit
    unfold srtItems at hit
    obtain ⟨i, hi, rfl⟩ := mem_mapIdx_exists hit
    obtain ⟨⟨msA, hA⟩, msB, hB⟩ := htimes (t.chunks[i]) (List.getElem_mem hi)
    refine ⟨?_, ?_⟩
    · intro c hc
      exact (isDigit_ne_seps (natRepr_all_digits _ c hc)).2.2.2
    · dsimp only
      rw [hA, hB]
      exact timeline_no_newline msA msB
  have hmain : parseSRT (transcriptToSRT t) =
      some (t.chunks.map fun c =>
        (⌊c.startTime⌋.toNat, ⌊c.endTime⌋.toNat, jsTrim c.text)) := by
    cases hch : t.chunks with
    | nil =>
      have hT : transcriptToSRT t = "" := by
        unfold transcriptToSRT
        rw [hch]
        rfl
      rw [hT]
      rfl
    | cons c cs =>
      rw [← hch]
      have hne : srtItems t ≠ [] := by
        unfold srtItems
        rw [hch]
        simp
      have hlines := srt_lines (srtItems t) hnl hne
      rw [transcriptToSRT_eq_blocks]
      unfold parseSRT
      rw [show splitOnChar '\n'
          ((String.intercalate "\n" ((srtItems t).map SRTItem.block)).data) =
          (srtItems t).flatMap fun it =>
            it.idxChars :: it.timeChars ::
              (splitOnChar '\n' it.textChars ++ [[]]) from hlines]
      have hfuel : (srtItems t).length ≤
          (String.intercalate "\n" ((srtItems t).map SRTItem.block)).data.length + 1 := by
        have hsplit := splitOnPred_length_le (fun c => c == '\n')
          ((String.intercalate "\n" ((srtItems t).map SRTItem.block)).data)
        rw [show splitOnPred (fun c => c == '\n')
            ((String.intercalate "\n" ((srtItems t).map SRTItem.block)).data) =
            splitOnChar '\n'
            ((String.intercalate "\n" ((srtItems t).map SRTItem.block)).data) from rfl,
          hlines] at hsplit
        have hge := flatMap_lines_length_ge (srtItems t)
        omega
      rw [parseSRTBlocks_items (srtItems t) _ hfuel hitems_ok]
      congr 1
      apply List.ext_getElem
      · simp [srtItems]
      · intro i h1 h2
        simp only [srtItems, List.getElem_map, List.getElem_mapIdx]
  exact ⟨rfl, fun ms h => millisecondsToSRTTime_length ms h, hmain,
    by rw [hmain]; simp⟩

/-- Witness for C5: a one-chunk transcript with integer times round-trips
to its exact contents, a chunk whose text holds a single interior newline
(a standard two-line cue) also round-trips exactly, and a sub-100-hour
time renders at width 12. -/
theorem C5_srt_roundtrip_witness :
    parseSRT (transcriptToSRT
      { id := "w"
        chunks := [{ words := [], startTime := 0, endTime := 1000, text := "hello" }]
        language := "en", totalDuration := 1000 }) =
      some [((0 : ℕ), (1000 : ℕ), "hello")] ∧
    parseSRT (transcriptToSRT
      { id := "w2"
        chunks := [{ words := [], startTime := 0, endTime := 1000, text := "a\nb" }]
        language := "en", totalDuration := 1000 }) =
      some [((0 : ℕ), (1000 : ℕ), "a\nb")] ∧
    (millisecondsToSRTTime ((3723004 : ℕ) : ℚ)).data.length = 12 := by
  have h := C5_srt_format_and_roundtrip
    { id := "w"
      chunks := [{ words := [], startTime := 0, endTime := 1000, text := "hello" }]
      language := "en", totalDuration := 1000 }
    (by
      intro c hc
      simp only [List.mem_singleton] at hc
      subst hc
      exact ⟨⟨0, by simp⟩, ⟨1000, by simp⟩⟩)
    (by
      intro c hc
      simp only [List.mem_singleton] at hc
      subst hc
      decide)
  have h2 := C5_srt_format_and_roundtrip
    { id := "w2"
      chunks := [{ words := [], startTime := 0, endTime := 1000, text := "a\nb" }]
      language := "en", totalDuration := 1000 }
    (by
      intro c hc
      simp only [List.mem_singleton] at hc
      subst hc
      exact ⟨⟨0, by simp⟩, ⟨1000, by simp⟩⟩)
    (by
      intro c hc
      simp only [List.mem_singleton] at hc
      subst hc
      decide)
  refine ⟨?_, ?_, h.2.1 3723004 (by norm_num)⟩
  · have h3 := h.2.2.1
    norm_num [show jsTrim "hello" = "hello" from rfl] at h3
    exact h3
  · have h3 := h2.2.2.1
    norm_num [show jsTrim "a\nb" = "a\nb" from rfl] at h3
    exact h3

/-- C5 counterexample: for a chunk whose (trimmed) text contains a blank
line, the emitted document's text region merges with the block separator,
and a standard parser fails outright — re-parsing does not recover the
one-chunk transcript, so the round-trip claim does not hold for every
transcript. -/
theorem C5_roundtrip_counterexample :
    parseSRT (transcriptToSRT
      { id := "cex"
        chunks := [{ words := [], startTime := 0, endTime := 1000, text := "a\n\nb" }]
        language := "en", totalDuration := 1000 }) = none ∧
    ([{ words := [], startTime := 0, endTime := 1000,
        text := "a\n\nb" }] : List TranscriptChunk).length = 1 := by
  have hmapIdx : ∀ (f : ℕ → TranscriptChunk → String) (c : TranscriptChunk),
      List.mapIdx f [c] = [f 0 c] := fun f c => rfl
  have hs : transcriptToSRT
      { id := "cex"
        chunks := [{ words := [], startTime := 0, endTime := 1000, text := "a\n\nb" }]
        language := "en", totalDuration := 1000 } =
      "1\n00:00:00,000 --> 00:00:01,000\na\n\nb\n" := by
    unfold transcriptToSRT
    rw [hmapIdx]
    dsimp only
    rw [show (0 : ℚ) = ((0 : ℕ) : ℚ) from by simp,
      show (1000 : ℚ) = ((1000 : ℕ) : ℚ) from by simp,
      millisecondsToSRTTime_natCast, millisecondsToSRTTime_natCast]
    rfl
  refine ⟨?_, rfl⟩
  rw [hs]
  rfl

/-- C7 counterexample: after the first window opens and the first streamed
text arrives (reachable: `on_chunk_start` then `callback_function`), the
posted percentage is `min(95, 0·15 + 1·5) = 5`, while the claimed formula
`min(95, windowIndex·15 + finalizedChunkCount·5)` evaluates to 0 at that
state — the code multiplies the count of all opened chunk records
(`chunks.length`), not the finalized-chunk count. -/
theorem C7_progress_formula_counterexample :
    (runStreamer 30 5 [.chunkStart 0, .textPiece "hi"]).2 = [5] ∧
    claimedProgress (runStreamer 30 5 [.chunkStart 0]).1 = 0 ∧ (5 : ℕ) ≠ 0 := by
  refine ⟨rfl, rfl, by norm_num⟩

end OpenCut
